import Mathlib

/-!
Shallow embedding of the OpenBazaar Kademlia routing table
(src/node/routingtable.py) and of the KBucket / constants collaborators it
imports.  The `kbucket`, `constants` and `guid` modules are not under src/,
so their operations are modelled from the spec (spec.md §3, §4.1, §6); such
definitions carry a doc comment starting with "Modelled from the spec:".
Identifiers are modelled on their integer interpretation (spec §3); a
contact's guid is `Option Nat`, `none` standing for the absent/falsy guid.
`none` as the result of a table operation models a Python exception escaping
the call (or an unbounded recursion, for the gas-bounded functions).
-/

/-- A peer contact record (spec §3: guid, opaque transport address compared by
value, failed-RPC counter).  Python compares contacts by guid equality. -/
structure Contact where
  guid : Option Nat
  address : Nat
  failedRPCs : Nat
deriving DecidableEq

/-- Modelled from the spec: the `kbucket` module is absent from src/.  A
KBucket is a bounded insertion-ordered list of contacts covering the
half-open id interval [rangeMin, rangeMax), with a last-accessed stamp. -/
structure KBucket where
  rangeMin : Nat
  rangeMax : Nat
  contacts : List Contact
  lastAccessed : Nat
deriving DecidableEq

instance : Inhabited KBucket := ⟨⟨0, 0, [], 0⟩⟩

namespace KBucket

/-- Modelled from the spec: key_in_range on an integer id,
rangeMin ≤ id < rangeMax. -/
def keyInRangeNat (b : KBucket) (x : Nat) : Bool :=
  decide (b.rangeMin ≤ x ∧ x < b.rangeMax)

/-- key_in_range on a possibly absent id: an absent id lies in no range. -/
def keyInRange (b : KBucket) (g : Option Nat) : Bool :=
  match g with
  | none => false
  | some x => b.keyInRangeNat x

/-- Modelled from the spec: get_contact(guid), exact match by guid;
`none` is absence. -/
def getContact (b : KBucket) (g : Option Nat) : Option Contact :=
  b.contacts.find? (fun c => c.guid == g)

/-- Modelled from the spec: add_contact(c).  A contact whose guid is already
present is moved (that existing entry) to the tail; otherwise the contact is
appended when size < k; `none` models the BucketFull failure.  Success
touches lastAccessed. -/
def addContact (k now : Nat) (b : KBucket) (c : Contact) : Option KBucket :=
  match b.contacts.find? (fun d => d.guid == c.guid) with
  | some d =>
      some { b with contacts := (b.contacts.eraseP (fun e => e.guid == c.guid)) ++ [d],
                    lastAccessed := now }
  | none =>
      if b.contacts.length < k then
        some { b with contacts := b.contacts ++ [c], lastAccessed := now }
      else
        none

/-- Modelled from the spec: remove_contact(guid) removes the contact with
that guid; `none` models the NotPresent/ValueError failure. -/
def removeContact (b : KBucket) (g : Option Nat) : Option KBucket :=
  if b.contacts.any (fun c => c.guid == g) then
    some { b with contacts := b.contacts.eraseP (fun c => c.guid == g) }
  else
    none

/-- Whether a contact is the one excluded by an optional exclude guid. -/
def excludedBy (exclude : Option Nat) (c : Contact) : Bool :=
  match exclude with
  | none => false
  | some e => c.guid == some e

/-- Modelled from the spec: get_contacts(n, exclude): up to n contacts in
insertion order, excluding any whose guid equals the exclude guid. -/
def getContacts (b : KBucket) (n : Nat) (exclude : Option Nat) : List Contact :=
  (b.contacts.filter (fun c => !(excludedBy exclude c))).take n

/-- The number of contacts `getContacts` can draw from a bucket once the
excluded guid is removed. -/
def numAvail (b : KBucket) (exclude : Option Nat) : Nat :=
  (b.contacts.filter (fun c => !(excludedBy exclude c))).length

end KBucket

/-- The id width used by TreeRoutingTable.__init__; the source reads an
undefined BIT_NODE_ID_LEN, whose value the spec (§6, §9) fixes at B = 160. -/
def BIT_NODE_ID_LEN : Nat := 160

/-- The TreeRoutingTable state: the owning node's id and the ordered bucket
list.  (market_id and the logger carry no routing state and are omitted.) -/
structure TreeRoutingTable where
  parentNodeId : Nat
  buckets : List KBucket
deriving DecidableEq

/-- Outcome of the deferred head ping in the base eviction policy (spec §4.2):
success, or a Timeout carrying the pinged node's guid
(failure.getErrorMessage()). -/
inductive PingOutcome where
  | ok
  | timeout (deadId : Nat)
deriving DecidableEq

/-- kbucketIndex over a bucket list: the index of the unique bucket whose
range covers the key; `none` models both KeyError (no bucket) and
RuntimeError (several buckets). -/
def kbucketIndexL (bs : List KBucket) (g : Option Nat) : Option Nat :=
  match (bs.enum.filter (fun p => p.2.keyInRange g)).map (fun p => p.1) with
  | [i] => some i
  | _ => none

/-- The contact-copying loop of splitBucket: each contact of the old bucket
whose guid lies in the new bucket's range is added to the new bucket
(kbucket add, so a BucketFull there escapes: `none`). -/
def splitCopy (k now : Nat) (newB : KBucket) (cs : List Contact) : Option KBucket :=
  cs.foldl (fun acc c => acc.bind (fun nb =>
    if nb.keyInRange c.guid then nb.addContact k now c else some nb)) (some newB)

/-- The removal loop of splitBucket: every contact now in the new bucket is
removed (by guid) from the old one; an absent guid raises (`none`). -/
def splitRemove (cs : List Contact) (oldB : KBucket) : Option KBucket :=
  cs.foldl (fun acc c => acc.bind (fun ob => ob.removeContact c.guid)) (some oldB)

/-- splitBucket on the bucket list.  The source indexes the list with an
undefined name `old_bucket_index`; per spec §9 the intended spelling is the
`oldBucketIndex` parameter, modelled here.  The old bucket keeps
[rangeMin, splitPoint) with splitPoint = rangeMax - (rangeMax - rangeMin)/2,
the new bucket covers [splitPoint, rangeMax) and is inserted right after;
contacts in the upper half move to it in their original order. -/
def splitBucketL (k now : Nat) (bs : List KBucket) (i : Nat) : Option (List KBucket) :=
  match bs.get? i with
  | none => none
  | some oldB =>
    let splitPoint := oldB.rangeMax - (oldB.rangeMax - oldB.rangeMin) / 2
    match splitCopy k now ⟨splitPoint, oldB.rangeMax, [], now⟩ oldB.contacts with
    | none => none
    | some newB =>
      match splitRemove newB.contacts { oldB with rangeMax := splitPoint } with
      | none => none
      | some oldB2 => some ((bs.set i oldB2).insertIdx (i + 1) newB)

namespace TreeRoutingTable

/-- __init__: a single bucket spanning [0, 2^B). -/
def init (parent now : Nat) : TreeRoutingTable :=
  ⟨parent, [⟨0, 2 ^ BIT_NODE_ID_LEN, [], now⟩]⟩

/-- kbucketIndex of the table. -/
def kbucketIndex (s : TreeRoutingTable) (g : Option Nat) : Option Nat :=
  kbucketIndexL s.buckets g

/-- splitBucket of the table. -/
def splitBucket (k now : Nat) (s : TreeRoutingTable) (i : Nat) : Option TreeRoutingTable :=
  (splitBucketL k now s.buckets i).map (fun bs => { s with buckets := bs })

/-- addContact of the base table.  `gas` bounds the recursion (the retry
after a split and the re-add from the ping errback); `none` models a call
that crashes or exceeds the bound.  The ping of the bucket head is modelled
by the `ping` outcome argument; the returned list collects the guids of the
contacts that were pinged, in order. -/
def addContact (k : Nat) : Nat → Nat → PingOutcome → TreeRoutingTable → Contact →
    Option (TreeRoutingTable × List (Option Nat))
  | gas, now, ping, s, c =>
    if c.guid == some s.parentNodeId then some (s, [])
    else
      match kbucketIndexL s.buckets c.guid with
      | none => none
      | some i =>
        let b := s.buckets.getD i default
        match b.getContact c.guid with
        | some _ => some (s, [])
        | none =>
          match b.addContact k now c with
          | some b2 => some ({ s with buckets := s.buckets.set i b2 }, [])
          | none =>
            if b.keyInRangeNat s.parentNodeId then
              match gas with
              | 0 => none
              | gas' + 1 =>
                match splitBucketL k now s.buckets i with
                | none => none
                | some bs2 => addContact k gas' now ping { s with buckets := bs2 } c
            else
              match b.contacts with
              | [] => none
              | head :: _ =>
                match ping with
                | .ok => some (s, [head.guid])
                | .timeout dead =>
                  let b2 := (b.removeContact (some dead)).getD b
                  let s2 := { s with buckets := s.buckets.set i b2 }
                  match gas with
                  | 0 => none
                  | gas' + 1 =>
                    (addContact k gas' now ping s2 c).map
                      (fun r => (r.1, head.guid :: r.2))

/-- removeContact of the base table: the ValueError of an absent guid is
absorbed (the table is returned unchanged). -/
def removeContact (s : TreeRoutingTable) (g : Option Nat) : Option TreeRoutingTable :=
  match kbucketIndexL s.buckets g with
  | none => none
  | some i =>
    let b := s.buckets.getD i default
    match b.removeContact g with
    | none => some s
    | some b2 => some { s with buckets := s.buckets.set i b2 }

end TreeRoutingTable

/-- One mutating call on the base table, for stating invariants over call
sequences: addContact (with its gas bound, clock value and ping outcome),
removeContact, or a direct splitBucket. -/
inductive TreeOp where
  | add (gas now : Nat) (ping : PingOutcome) (c : Contact)
  | remove (g : Option Nat)
  | split (now : Nat) (i : Nat)

/-- Run one base-table operation. -/
def treeStep (k : Nat) (s : TreeRoutingTable) : TreeOp → Option TreeRoutingTable
  | .add gas now ping c => (TreeRoutingTable.addContact k gas now ping s c).map (fun r => r.1)
  | .remove g => s.removeContact g
  | .split now i => s.splitBucket k now i

/-- Run a sequence of base-table operations; a crash aborts the run. -/
def treeRun (k : Nat) : TreeRoutingTable → List TreeOp → Option TreeRoutingTable
  | s, [] => some s
  | s, op :: ops => (treeStep k s op).bind (fun s2 => treeRun k s2 ops)

/-- The inner loop of findCloseNodes: visit buckets bucketIndex - i and
bucketIndex + i while the result is short of k and a direction remains; the
canGoLower/canGoHigher flags follow the source exactly (each is refreshed,
from the step counter, only while still true).  `gas` bounds the iteration;
findCloseNodes passes one more than the bucket count, which the loop can
never exhaust. -/
def fcnLoop (k : Nat) (bs : List KBucket) (bIdx : Nat) (ex : Option Nat) :
    Nat → Nat → Bool → Bool → List Contact → List Contact
  | 0, _, _, _, acc => acc
  | gas + 1, i, cgl, cgh, acc =>
    if acc.length < k ∧ (cgl = true ∨ cgh = true) then
      let acc2 := if cgl then
          acc ++ (bs.getD (bIdx - i) default).getContacts (k - acc.length) ex
        else acc
      let cgl2 := if cgl then decide (i + 1 ≤ bIdx) else cgl
      let acc3 := if cgh then
          acc2 ++ (bs.getD (bIdx + i) default).getContacts (k - acc2.length) ex
        else acc2
      let cgh2 := if cgh then decide (bIdx + (i + 1) < bs.length) else cgh
      fcnLoop k bs bIdx ex gas (i + 1) cgl2 cgh2 acc3
    else acc

namespace TreeRoutingTable

/-- findCloseNodes(key, count, nodeID): start from the bucket covering the
key, then widen symmetrically, always filling towards constants.k (the
`count` argument is accepted but never used, as in the source).  The source
body reads an out-of-scope name `node_id` where the parameter is `nodeID`;
per spec §9 the intended behaviour (modelled here) excludes the `nodeID`
argument.  `none` models a failing kbucketIndex. -/
def findCloseNodes (k : Nat) (s : TreeRoutingTable) (key : Option Nat)
    (count : Nat) (nodeID : Option Nat) : Option (List Contact) :=
  match kbucketIndexL s.buckets key with
  | none => none
  | some bIdx =>
    let bucket := s.buckets.getD bIdx default
    let closest := bucket.getContacts k nodeID
    some (fcnLoop k s.buckets bIdx nodeID (s.buckets.length + 1) 1
      (decide (1 ≤ bIdx)) (decide (bIdx + 1 < s.buckets.length)) closest)

end TreeRoutingTable

/-- The id post-processing of _randomIDInBucketRange, at the hex-digit
level: the chosen value's base-16 digits (big-endian, as `hex` prints them,
with the empty list for 0), zero-extended on the left to an even count
(decode(hex) needs whole bytes) and then to 20 bytes = 40 digits.
getRefreshList finally re-encodes those 20 bytes as 40 hex digits, so the
returned id is exactly this digit list. -/
def idHexDigits (v : Nat) : List Nat :=
  let ds := (Nat.digits 16 v).reverse
  let ds2 := if ds.length % 2 = 1 then 0 :: ds else ds
  List.replicate (40 - ds2.length) 0 ++ ds2

/-- The refresh test of getRefreshList on one bucket:
force or now - lastAccessed ≥ refreshTimeout (in ℤ, as in Python). -/
def staleOrForced (refreshTimeout now : Nat) (force : Bool) (b : KBucket) : Bool :=
  force || decide ((refreshTimeout : Int) ≤ (now : Int) - (b.lastAccessed : Int))

namespace TreeRoutingTable

/-- getRefreshList(startIndex, force): walk the buckets from startIndex in
order; for each stale (or forced) bucket draw a random id in its range —
the draw is modelled by the `oracle` argument standing for random.randrange,
whose ValueError on an empty range is `none` — and emit its padded hex
digits. -/
def getRefreshList (refreshTimeout now : Nat) (oracle : Nat → Nat → Nat)
    (s : TreeRoutingTable) (startIndex : Nat) (force : Bool) :
    Option (List (List Nat)) :=
  (s.buckets.drop startIndex).foldl (fun acc b =>
    acc.bind (fun ids =>
      if staleOrForced refreshTimeout now force b then
        if b.rangeMin < b.rangeMax then
          some (ids ++ [idHexDigits (oracle b.rangeMin b.rangeMax)])
        else none
      else some ids)) (some [])

end TreeRoutingTable

/-- The optimized table state: the base state plus the per-bucket
replacement cache, a mapping from bucket index to the cached contact list
(Python dict, modelled as an association list with unique keys). -/
structure OptimizedTreeRoutingTable where
  parentNodeId : Nat
  buckets : List KBucket
  replacement_cache : List (Nat × List Contact)
deriving DecidableEq

/-- Dict membership: bucketIndex in replacement_cache. -/
def rcMem (cache : List (Nat × List Contact)) (i : Nat) : Bool :=
  cache.any (fun p => p.1 == i)

/-- Dict read: replacement_cache[bucketIndex] (defaulting to [] where the
source has just ensured the key exists). -/
def rcGet (cache : List (Nat × List Contact)) (i : Nat) : List Contact :=
  ((cache.find? (fun p => p.1 == i)).map Prod.snd).getD []

/-- Dict write: replacement_cache[bucketIndex] = l (in place if the key
exists, else appended). -/
def rcSet : List (Nat × List Contact) → Nat → List Contact → List (Nat × List Contact)
  | [], i, l => [(i, l)]
  | p :: ps, i, l => if p.1 == i then (i, l) :: ps else p :: rcSet ps i l

/-- Dict key removal: replacement_cache.pop(key). -/
def rcErase (cache : List (Nat × List Contact)) (i : Nat) : List (Nat × List Contact) :=
  cache.filter (fun p => p.1 != i)

/-- The replacement-cache insertion of OptimizedTreeRoutingTable.addContact
(both occurrences), literally: ensure the key; if a contact with this guid
is cached, remove it first (MRU); ELSE IF the number of cached BUCKETS
(len of the dict, as in the source — not the per-bucket list length)
reaches k, pop the dict KEY 0 (KeyError → `none` when absent); finally
append to replacement_cache[bucketIndex] (KeyError → `none` if that very
key was just popped). -/
def cacheInsert (k : Nat) (cache : List (Nat × List Contact)) (i : Nat) (c : Contact) :
    Option (List (Nat × List Contact)) :=
  let cache1 := if rcMem cache i then cache else rcSet cache i []
  let cur := rcGet cache1 i
  let step : Option (List (Nat × List Contact)) :=
    if cur.any (fun d => d.guid == c.guid) then
      some (rcSet cache1 i (cur.eraseP (fun d => d.guid == c.guid)))
    else if k ≤ cache1.length then
      if rcMem cache1 0 then some (rcErase cache1 0) else none
    else some cache1
  step.bind (fun cache2 =>
    if rcMem cache2 i then some (rcSet cache2 i (rcGet cache2 i ++ [c])) else none)

namespace OptimizedTreeRoutingTable

/-- __init__ of the optimized table: one full-range bucket, empty cache. -/
def init (parent now : Nat) : OptimizedTreeRoutingTable :=
  ⟨parent, [⟨0, 2 ^ BIT_NODE_ID_LEN, [], now⟩], []⟩

/-- removeContact of the optimized table: remove by guid (the ValueError of
an absent guid is absorbed); on an actual removal, if the bucket's
replacement cache is non-empty, pop its tail and insert it into the bucket.
The source consults a misspelt `self.replacementCache` here; per spec §9
the intended field is replacement_cache, which is what is modelled. -/
def removeContact (k now : Nat) (s : OptimizedTreeRoutingTable) (g : Option Nat) :
    Option OptimizedTreeRoutingTable :=
  match kbucketIndexL s.buckets g with
  | none => none
  | some i =>
    let b := s.buckets.getD i default
    match b.removeContact g with
    | none => some s
    | some b2 =>
      let cs := rcGet s.replacement_cache i
      if rcMem s.replacement_cache i && decide (0 < cs.length) then
        match cs.getLast? with
        | none => none
        | some promoted =>
          match b2.addContact k now promoted with
          | none => none
          | some b3 =>
            some { s with buckets := s.buckets.set i b3,
                          replacement_cache := rcSet s.replacement_cache i cs.dropLast }
      else
        some { s with buckets := s.buckets.set i b2 }

/-- addContact of the optimized table.  Returns the table outcome paired
with the contact object as it stands after the call (the source resets
contact.failedRPCs in place before attempting any insertion).  `gas` bounds
the split retries; `none` models a crash or an exhausted bound.  An
absent/falsy guid and the parent's own guid return early without the reset.
On a guid already present with a different address, the existing entry is
removed (through removeContact, cache promotion included) and the contact
re-inserted with the same full-bucket logic; a full non-splittable bucket
diverts the contact to the replacement cache via cacheInsert. -/
def addContact (k : Nat) : Nat → Nat → OptimizedTreeRoutingTable → Contact →
    Option OptimizedTreeRoutingTable × Contact
  | gas, now, s, c =>
    match c.guid with
    | none => (some s, c)
    | some _ =>
      if c.guid == some s.parentNodeId then (some s, c)
      else
        let c2 : Contact := { c with failedRPCs := 0 }
        match kbucketIndexL s.buckets c2.guid with
        | none => (none, c2)
        | some i =>
          let b := s.buckets.getD i default
          match b.getContact c2.guid with
          | none =>
            match b.addContact k now c2 with
            | some b2 => (some { s with buckets := s.buckets.set i b2 }, c2)
            | none =>
              if b.keyInRangeNat s.parentNodeId then
                match gas with
                | 0 => (none, c2)
                | gas' + 1 =>
                  match splitBucketL k now s.buckets i with
                  | none => (none, c2)
                  | some bs2 =>
                    ((addContact k gas' now { s with buckets := bs2 } c2).1, c2)
              else
                ((cacheInsert k s.replacement_cache i c2).map
                  (fun rc => { s with replacement_cache := rc }), c2)
          | some oldC =>
            if oldC.address != c2.address then
              match removeContact k now s c2.guid with
              | none => (none, c2)
              | some s2 =>
                let b3 := s2.buckets.getD i default
                match b3.addContact k now c2 with
                | some b4 => (some { s2 with buckets := s2.buckets.set i b4 }, c2)
                | none =>
                  if b3.keyInRangeNat s2.parentNodeId then
                    match gas with
                    | 0 => (none, c2)
                    | gas' + 1 =>
                      match splitBucketL k now s2.buckets i with
                      | none => (none, c2)
                      | some bs2 =>
                        ((addContact k gas' now { s2 with buckets := bs2 } c2).1, c2)
                  else
                    ((cacheInsert k s2.replacement_cache i c2).map
                      (fun rc => { s2 with replacement_cache := rc }), c2)
            else (some s, c2)

end OptimizedTreeRoutingTable

/-- One mutating call on the optimized table. -/
inductive OptOp where
  | add (gas now : Nat) (c : Contact)
  | remove (now : Nat) (g : Option Nat)
  | split (now : Nat) (i : Nat)

/-- Run one optimized-table operation (split is the inherited splitBucket,
which leaves the cache untouched). -/
def optStep (k : Nat) (s : OptimizedTreeRoutingTable) : OptOp → Option OptimizedTreeRoutingTable
  | .add gas now c => (OptimizedTreeRoutingTable.addContact k gas now s c).1
  | .remove now g => s.removeContact k now g
  | .split now i => (splitBucketL k now s.buckets i).map (fun bs => { s with buckets := bs })

/-- Run a sequence of optimized-table operations; a crash aborts the run. -/
def optRun (k : Nat) : OptimizedTreeRoutingTable → List OptOp → Option OptimizedTreeRoutingTable
  | s, [] => some s
  | s, op :: ops => (optStep k s op).bind (fun s2 => optRun k s2 ops)

/-! ### Basic lemmas about the embedded operations -/

theorem KBucket.addContact_ranges {k now : Nat} {b b2 : KBucket} {c : Contact}
    (h : b.addContact k now c = some b2) :
    b2.rangeMin = b.rangeMin ∧ b2.rangeMax = b.rangeMax := by
  rcases hf : b.contacts.find? (fun d => d.guid == c.guid) with _ | d <;>
    simp only [KBucket.addContact, hf] at h
  · by_cases hl : b.contacts.length < k
    · rw [if_pos hl] at h
      cases h
      exact ⟨rfl, rfl⟩
    · rw [if_neg hl] at h
      cases h
  · cases h
    exact ⟨rfl, rfl⟩

theorem KBucket.removeContact_ranges {b b2 : KBucket} {g : Option Nat}
    (h : b.removeContact g = some b2) :
    b2.rangeMin = b.rangeMin ∧ b2.rangeMax = b.rangeMax := by
  by_cases ha : b.contacts.any (fun c => c.guid == g) <;>
    simp only [KBucket.removeContact, ha, if_pos, if_neg, Bool.not_eq_true,
      if_false, reduceIte] at h
  · cases h
    exact ⟨rfl, rfl⟩
  · cases h

theorem KBucket.keyInRange_congr {b b2 : KBucket} (g : Option Nat)
    (h1 : b2.rangeMin = b.rangeMin) (h2 : b2.rangeMax = b.rangeMax) :
    b2.keyInRange g = b.keyInRange g := by
  cases g <;> simp [KBucket.keyInRange, KBucket.keyInRangeNat, h1, h2]

/-- The index list kbucketIndexL filters, in index form. -/
def coveringIdx (bs : List KBucket) (g : Option Nat) : List Nat :=
  (List.range bs.length).filter (fun j => (bs.getD j default).keyInRange g)

theorem enumFrom_keyrange_eq (g : Option Nat) :
    ∀ (bs : List KBucket) (n : Nat),
      ((List.enumFrom n bs).filter (fun p => p.2.keyInRange g)).map (fun p => p.1)
        = (coveringIdx bs g).map (n + ·) := by
  intro bs
  induction bs with
  | nil => intro n; simp [coveringIdx]
  | cons b bs ih =>
    intro n
    have henum : List.enumFrom n (b :: bs) = (n, b) :: List.enumFrom (n + 1) bs := rfl
    have hcov : coveringIdx (b :: bs) g
        = (if b.keyInRange g then [0] else []) ++ (coveringIdx bs g).map Nat.succ := by
      unfold coveringIdx
      rw [List.length_cons, List.range_succ_eq_map, List.filter_cons, List.filter_map]
      have hcomp : ((fun j => ((b :: bs).getD j default).keyInRange g) ∘ Nat.succ)
          = fun j => (bs.getD j default).keyInRange g := by
        funext j
        simp [Function.comp, List.getD_cons_succ]
      rw [hcomp]
      by_cases hb : b.keyInRange g = true <;>
        simp [List.getD_cons_zero, hb]
    rw [henum, List.filter_cons, hcov]
    by_cases hb : b.keyInRange g = true
    · simp only [hb, if_true, List.map_cons, List.map_append, List.map_map, ih (n + 1)]
      refine List.cons_eq_cons.mpr ⟨rfl, ?_⟩
      apply List.map_congr_left
      intro x _
      simp only [Function.comp_apply]
      omega
    · simp only [Bool.not_eq_true] at hb
      simp only [hb, Bool.false_eq_true, if_false, List.nil_append, List.map_map,
        ih (n + 1)]
      apply List.map_congr_left
      intro x _
      simp only [Function.comp_apply]
      omega

theorem kbucketIndexL_eq_covering (bs : List KBucket) (g : Option Nat) :
    kbucketIndexL bs g
      = match coveringIdx bs g with
        | [i] => some i
        | _ => none := by
  unfold kbucketIndexL
  have h := enumFrom_keyrange_eq g bs 0
  have h0 : List.enum bs = List.enumFrom 0 bs := rfl
  rw [h0, h]
  rcases coveringIdx bs g with _ | ⟨i, _ | ⟨j, l⟩⟩ <;> simp

theorem mem_coveringIdx {bs : List KBucket} {g : Option Nat} {j : Nat} :
    j ∈ coveringIdx bs g ↔ j < bs.length ∧ (bs.getD j default).keyInRange g = true := by
  simp [coveringIdx, List.mem_filter, List.mem_range]

theorem kbucketIndexL_some_iff {bs : List KBucket} {g : Option Nat} {i : Nat} :
    kbucketIndexL bs g = some i ↔ coveringIdx bs g = [i] := by
  rw [kbucketIndexL_eq_covering]
  rcases h : coveringIdx bs g with _ | ⟨j, _ | ⟨j', l⟩⟩ <;> simp

theorem kbucketIndexL_some_mem {bs : List KBucket} {g : Option Nat} {i : Nat}
    (h : kbucketIndexL bs g = some i) :
    i < bs.length ∧ (bs.getD i default).keyInRange g = true := by
  have := kbucketIndexL_some_iff.mp h
  have : i ∈ coveringIdx bs g := by rw [this]; exact List.mem_singleton.mpr rfl
  exact mem_coveringIdx.mp this

theorem kbucketIndexL_some_unique {bs : List KBucket} {g : Option Nat} {i : Nat}
    (h : kbucketIndexL bs g = some i) {j : Nat} (hj : j < bs.length)
    (hr : (bs.getD j default).keyInRange g = true) : j = i := by
  have hc := kbucketIndexL_some_iff.mp h
  have : j ∈ coveringIdx bs g := mem_coveringIdx.mpr ⟨hj, hr⟩
  rw [hc] at this
  exact List.mem_singleton.mp this

theorem coveringIdx_congr {bs bs2 : List KBucket} {g : Option Nat}
    (hl : bs2.length = bs.length)
    (hk : ∀ j, j < bs.length →
      (bs2.getD j default).keyInRange g = (bs.getD j default).keyInRange g) :
    coveringIdx bs2 g = coveringIdx bs g := by
  unfold coveringIdx
  rw [hl]
  exact List.filter_congr (fun j hj => hk j (List.mem_range.mp hj))

theorem kbucketIndexL_congr {bs bs2 : List KBucket} {g : Option Nat}
    (hl : bs2.length = bs.length)
    (hk : ∀ j, j < bs.length →
      (bs2.getD j default).keyInRange g = (bs.getD j default).keyInRange g) :
    kbucketIndexL bs2 g = kbucketIndexL bs g := by
  rw [kbucketIndexL_eq_covering, kbucketIndexL_eq_covering,
    coveringIdx_congr hl hk]

theorem getD_set_self {bs : List KBucket} {i : Nat} {b : KBucket}
    (h : i < bs.length) : (bs.set i b).getD i default = b := by
  rw [List.getD_eq_getElem?_getD, List.getElem?_set_self h]
  rfl

theorem getD_set_ne {bs : List KBucket} {i j : Nat} {b : KBucket}
    (h : i ≠ j) : (bs.set i b).getD j default = bs.getD j default := by
  rw [List.getD_eq_getElem?_getD, List.getElem?_set_ne h, ← List.getD_eq_getElem?_getD]

theorem kbucketIndexL_set_ranges {bs : List KBucket} {i : Nat} {b2 : KBucket}
    (hi : i < bs.length)
    (h1 : b2.rangeMin = (bs.getD i default).rangeMin)
    (h2 : b2.rangeMax = (bs.getD i default).rangeMax) (g : Option Nat) :
    kbucketIndexL (bs.set i b2) g = kbucketIndexL bs g := by
  apply kbucketIndexL_congr (List.length_set bs i b2)
  intro j hj
  by_cases hij : i = j
  · subst hij
    rw [getD_set_self hi]
    exact KBucket.keyInRange_congr g h1 h2
  · rw [getD_set_ne hij]

theorem get?_some_getD {bs : List KBucket} {i : Nat} {b : KBucket}
    (h : bs.get? i = some b) : bs.getD i default = b := by
  rw [List.getD_eq_getElem?_getD, ← List.get?_eq_getElem?, h]
  rfl

theorem get?_some_lt {bs : List KBucket} {i : Nat} {b : KBucket}
    (h : bs.get? i = some b) : i < bs.length := by
  obtain ⟨hlt, -⟩ := List.get?_eq_some.mp h
  exact hlt

theorem find?_cons_of_none {p : Contact → Bool} {a : Contact} {l : List Contact}
    (h : List.find? p (a :: l) = none) : List.find? p l = none := by
  rw [List.find?_cons] at h
  rcases hpa : p a with _ | _ <;> rw [hpa] at h
  · exact h
  · cases h

/-! ### C10: the optimized addContact resets failedRPCs before any insertion -/

/-- C10: in the optimized table, addContact sets the contact's failedRPCs
counter to 0 for every contact with a present (non-empty) guid different
from parentNodeId, whatever else the call does with the contact — the
returned contact object has failedRPCs = 0 on every branch, including the
cache-diversion and already-present branches. -/
theorem optimized_addContact_resets_failedRPCs
    (k gas now : Nat) (s : OptimizedTreeRoutingTable) (c : Contact)
    (h1 : c.guid.isSome = true) (h2 : c.guid ≠ some s.parentNodeId) :
    (OptimizedTreeRoutingTable.addContact k gas now s c).2.failedRPCs = 0 := by
  obtain ⟨g, hg⟩ := Option.isSome_iff_exists.mp h1
  have hbeq : (c.guid == some s.parentNodeId) = false := beq_eq_false_iff_ne.mpr h2
  rw [hg] at hbeq
  rw [OptimizedTreeRoutingTable.addContact]
  simp only [hg, hbeq, Bool.false_eq_true, if_false]
  repeat' split
  all_goals rfl

/-- Closed witness for C10 at a concrete contact and table. -/
theorem optimized_addContact_resets_failedRPCs_check :
    ((⟨some 5, 9, 7⟩ : Contact).guid.isSome = true
        ∧ (⟨some 5, 9, 7⟩ : Contact).guid ≠ some (OptimizedTreeRoutingTable.init 0 0).parentNodeId)
      ∧ (OptimizedTreeRoutingTable.addContact 20 1 0
          (OptimizedTreeRoutingTable.init 0 0) ⟨some 5, 9, 7⟩).2.failedRPCs = 0 :=
  ⟨⟨by decide, by decide⟩,
    optimized_addContact_resets_failedRPCs 20 1 0
      (OptimizedTreeRoutingTable.init 0 0) ⟨some 5, 9, 7⟩ (by decide) (by decide)⟩

/-! ### C4: the replacement cache is NOT capped at k entries per bucket -/

/-- Contacts 2^159 + j, which all land in the upper half after the first
split of the full id space. -/
def c4contact (j : Nat) : Contact := ⟨some (2 ^ 159 + j), j, 3⟩

/-- Five optimized addContact calls with k = 2 and parent id 0: two fill the
bucket, the other three are diverted to its replacement cache. -/
def c4ops : List OptOp :=
  [OptOp.add 1 0 (c4contact 0), OptOp.add 1 0 (c4contact 1),
   OptOp.add 1 0 (c4contact 2), OptOp.add 1 0 (c4contact 3),
   OptOp.add 1 0 (c4contact 4)]

set_option maxHeartbeats 2000000 in
/-- C4 evaluation: with k = 2, after the c4ops sequence the per-bucket
replacement cache of bucket 1 holds THREE contacts — more than k — because
the source's cap check compares the number of cached buckets (the dict
length) with k instead of the per-bucket list length, and so never drops
the oldest cached entry. -/
theorem optimized_cache_exceeds_k :
    (optRun 2 (OptimizedTreeRoutingTable.init 0 0) c4ops).map
        (fun s => ((rcGet s.replacement_cache 1).map Contact.guid,
          (rcGet s.replacement_cache 1).length))
      = some ([some (2 ^ 159 + 2), some (2 ^ 159 + 3), some (2 ^ 159 + 4)], 3) := by
  decide

/-! ### C5: base-table eviction via head ping on a full non-splittable bucket -/

/-- C5: when the base addContact hits a full bucket (size k) that does not
contain parentNodeId, the bucket head is pinged; if the ping succeeds the
table is unchanged and the contact is stored nowhere, and if it fails with
a Timeout carrying the head's guid, the bucket becomes the old bucket minus
its head with the new contact appended at the tail. -/
theorem tree_addContact_full_bucket_ping
    (k gas now : Nat) (s : TreeRoutingTable) (c : Contact) (i : Nat) (b : KBucket)
    (hd : Contact) (tl : List Contact)
    (hcp : c.guid ≠ some s.parentNodeId)
    (hidx : kbucketIndexL s.buckets c.guid = some i)
    (hb : s.buckets.get? i = some b)
    (hcts : b.contacts = hd :: tl)
    (hfull : b.contacts.length = k)
    (hnew : b.getContact c.guid = none)
    (hnp : b.keyInRangeNat s.parentNodeId = false) :
    TreeRoutingTable.addContact k gas now PingOutcome.ok s c = some (s, [hd.guid]) ∧
    ∀ d, hd.guid = some d →
      TreeRoutingTable.addContact k (gas + 1) now (PingOutcome.timeout d) s c
        = some ({ s with buckets := s.buckets.set i { b with contacts := tl ++ [c], lastAccessed := now } }, [hd.guid]) := by
  have hlen : i < s.buckets.length := get?_some_lt hb
  have hgetD : s.buckets.getD i default = b := get?_some_getD hb
  have hbeq : (c.guid == some s.parentNodeId) = false := beq_eq_false_iff_ne.mpr hcp
  have hfind : b.contacts.find? (fun d => d.guid == c.guid) = none := hnew
  have haddfail : b.addContact k now c = none := by
    simp only [KBucket.addContact, hfind, hfull, lt_irrefl, if_false]
  constructor
  · rw [TreeRoutingTable.addContact]
    simp only [hbeq, Bool.false_eq_true, if_false, hidx, hgetD, hnew, haddfail,
      hnp, hcts]
  · intro d hdg
    have hany : ((hd :: tl).any fun c' => c'.guid == some d) = true := by
      simp [hdg]
    have hpos : (hd.guid == some d) = true := by simp [hdg]
    have herase : List.eraseP (fun c => c.guid == some d) (hd :: tl) = tl :=
      List.eraseP_cons_of_pos (p := fun x : Contact => x.guid == some d) hpos
    have hrem : b.removeContact (some d) = some { b with contacts := tl } := by
      simp only [KBucket.removeContact, hcts, hany, if_true, herase]
    set b2 : KBucket := { b with contacts := tl } with hb2
    have hidx2 : kbucketIndexL (s.buckets.set i b2) c.guid = some i := by
      rw [kbucketIndexL_set_ranges hlen (by rw [hgetD]) (by rw [hgetD]), hidx]
    have hget2 : (s.buckets.set i b2).getD i default = b2 := getD_set_self hlen
    have hfind2 : tl.find? (fun d' => d'.guid == c.guid) = none := by
      apply find?_cons_of_none (a := hd)
      rw [← hcts]
      exact hfind
    have hlt2 : tl.length < k := by
      rw [hcts] at hfull
      simp only [List.length_cons] at hfull
      omega
    have hadd2 : b2.addContact k now c
        = some { b with contacts := tl ++ [c], lastAccessed := now } := by
      simp only [KBucket.addContact, hb2, hfind2, hlt2, if_true]
    rw [TreeRoutingTable.addContact]
    simp only [hbeq, Bool.false_eq_true, if_false, hidx, hgetD, hnew, haddfail,
      hnp, hcts, hrem, Option.getD_some]
    rw [TreeRoutingTable.addContact]
    simp only [hbeq, Bool.false_eq_true, if_false, hidx2, hget2, hfind2, hadd2]
    have hgc2 : b2.getContact c.guid = none := hfind2
    simp only [hgc2, List.set_set, Option.map_some]
    rfl

/-- A concrete table for exercising the ping-eviction path: k = 2,
parent id 0, and a full bucket [8, 16) that does not contain the parent. -/
def c5table : TreeRoutingTable :=
  ⟨0, [⟨0, 8, [], 0⟩, ⟨8, 16, [⟨some 8, 1, 0⟩, ⟨some 9, 2, 0⟩], 0⟩]⟩

/-- The candidate contact for the ping-eviction scenario. -/
def c5new : Contact := ⟨some 10, 3, 0⟩

/-- Closed witness for C5: on ping success the table is unchanged and the
head (guid 8) was pinged; on a Timeout carrying the head's guid, the bucket
drops its head and appends the new contact at the tail. -/
theorem tree_addContact_full_bucket_ping_check :
    TreeRoutingTable.addContact 2 5 42 PingOutcome.ok c5table c5new
        = some (c5table, [some 8]) ∧
    TreeRoutingTable.addContact 2 5 42 (PingOutcome.timeout 8) c5table c5new
        = some (⟨0, [⟨0, 8, [], 0⟩, ⟨8, 16, [⟨some 9, 2, 0⟩, ⟨some 10, 3, 0⟩], 42⟩]⟩,
            [some 8]) := by
  have h1 := tree_addContact_full_bucket_ping 2 5 42 c5table c5new 1
    ⟨8, 16, [⟨some 8, 1, 0⟩, ⟨some 9, 2, 0⟩], 0⟩ ⟨some 8, 1, 0⟩ [⟨some 9, 2, 0⟩]
    (by decide) (by decide) (by decide) (by decide) (by decide) (by decide) (by decide)
  have h2 := tree_addContact_full_bucket_ping 2 4 42 c5table c5new 1
    ⟨8, 16, [⟨some 8, 1, 0⟩, ⟨some 9, 2, 0⟩], 0⟩ ⟨some 8, 1, 0⟩ [⟨some 9, 2, 0⟩]
    (by decide) (by decide) (by decide) (by decide) (by decide) (by decide) (by decide)
  exact ⟨h1.1, h2.2 8 rfl⟩

/-! ### C2: the buckets always partition [0, 2^B) -/

/-- The contiguity invariant of the bucket list: the first bucket starts at
lo, each bucket's rangeMax is the next one's rangeMin and is at least its
own rangeMin, and the last bucket ends at hi. -/
def chainFrom (lo hi : Nat) : List KBucket → Prop
  | [] => lo = hi
  | b :: bs => b.rangeMin = lo ∧ lo ≤ b.rangeMax ∧ chainFrom b.rangeMax hi bs

theorem chainFrom_set {lo hi : Nat} {b2 : KBucket} :
    ∀ {bs : List KBucket} {i : Nat}, chainFrom lo hi bs →
      bs.get? i = some (bs.getD i default) →
      b2.rangeMin = (bs.getD i default).rangeMin →
      b2.rangeMax = (bs.getD i default).rangeMax →
      chainFrom lo hi (bs.set i b2)
  | [], i, _, hg, _, _ => by cases i <;> cases hg
  | b :: bs, 0, hc, hg, h1, h2 => by
    rcases hc with ⟨hmin, hle, hchain⟩
    simp only [List.get?_cons_zero, Option.some.injEq, List.getD_cons_zero] at hg h1 h2
    refine ⟨by rw [h1, hmin], by rw [h2]; exact hle, ?_⟩
    rw [h2]
    exact hchain
  | b :: bs, i + 1, hc, hg, h1, h2 => by
    rcases hc with ⟨hmin, hle, hchain⟩
    simp only [List.get?_cons_succ, List.getD_cons_succ] at hg h1 h2
    exact ⟨hmin, hle, chainFrom_set hchain hg h1 h2⟩

theorem chainFrom_split_at {B1 B2 : KBucket} :
    ∀ {bs : List KBucket} {lo hi i : Nat} {oldB : KBucket},
      chainFrom lo hi bs → bs.get? i = some oldB →
      B1.rangeMin = oldB.rangeMin → B2.rangeMin = B1.rangeMax →
      B2.rangeMax = oldB.rangeMax →
      oldB.rangeMin ≤ B1.rangeMax → B1.rangeMax ≤ oldB.rangeMax →
      chainFrom lo hi ((bs.set i B1).insertIdx (i + 1) B2)
  | [], lo, hi, i, oldB, _, hg, _, _, _, _, _ => by cases i <;> cases hg
  | b :: bs, lo, hi, 0, oldB, hc, hg, h1, h2, h3, h4, h5 => by
    rcases hc with ⟨hmin, hle, hchain⟩
    simp only [List.get?_cons_zero, Option.some.injEq] at hg
    subst hg
    simp only [List.set_cons_zero, List.insertIdx_succ_cons, List.insertIdx_zero]
    simp only [chainFrom]
    refine ⟨by omega, by omega, h2, by omega, ?_⟩
    rw [h3]
    exact hchain
  | b :: bs, lo, hi, i + 1, oldB, hc, hg, h1, h2, h3, h4, h5 => by
    rcases hc with ⟨hmin, hle, hchain⟩
    simp only [List.get?_cons_succ] at hg
    simp only [List.set_cons_succ, List.insertIdx_succ_cons]
    exact ⟨hmin, hle, chainFrom_split_at hchain hg h1 h2 h3 h4 h5⟩

theorem copyFold_none (k now : Nat) (cs : List Contact) :
    cs.foldl (fun acc c => acc.bind (fun nb =>
      if nb.keyInRange c.guid then nb.addContact k now c else some nb))
      (none : Option KBucket) = none := by
  induction cs with
  | nil => rfl
  | cons c cs ih =>
    rw [List.foldl_cons]
    simpa using ih

theorem splitCopy_cons (k now : Nat) (nb : KBucket) (c : Contact) (cs : List Contact) :
    splitCopy k now nb (c :: cs)
      = (if nb.keyInRange c.guid then nb.addContact k now c else some nb).bind
          (fun nb1 => splitCopy k now nb1 cs) := by
  rcases h : (if nb.keyInRange c.guid then nb.addContact k now c else some nb) with _ | nb1
  · simp only [splitCopy, List.foldl_cons, Option.some_bind, h, Option.none_bind]
    exact copyFold_none k now cs
  · simp only [splitCopy, List.foldl_cons, Option.some_bind, h]

theorem removeFold_none (cs : List Contact) :
    cs.foldl (fun acc c => acc.bind (fun ob => ob.removeContact c.guid))
      (none : Option KBucket) = none := by
  induction cs with
  | nil => rfl
  | cons c cs ih =>
    rw [List.foldl_cons]
    simpa using ih

theorem splitRemove_cons (c : Contact) (cs : List Contact) (ob : KBucket) :
    splitRemove (c :: cs) ob
      = (ob.removeContact c.guid).bind (fun ob1 => splitRemove cs ob1) := by
  rcases h : ob.removeContact c.guid with _ | ob1
  · simp only [splitRemove, List.foldl_cons, Option.some_bind, h, Option.none_bind]
    exact removeFold_none cs
  · simp only [splitRemove, List.foldl_cons, Option.some_bind, h]

theorem splitCopy_ranges {k now : Nat} :
    ∀ {cs : List Contact} {nb nb2 : KBucket}, splitCopy k now nb cs = some nb2 →
      nb2.rangeMin = nb.rangeMin ∧ nb2.rangeMax = nb.rangeMax
  | [], nb, nb2, h => by
    cases h
    exact ⟨rfl, rfl⟩
  | c :: cs, nb, nb2, h => by
    rw [splitCopy_cons] at h
    by_cases hk : nb.keyInRange c.guid = true
    · rw [if_pos hk] at h
      rcases ha : nb.addContact k now c with _ | nb1 <;> rw [ha] at h
      · cases h
      · rw [Option.some_bind] at h
        have h1 := splitCopy_ranges h
        have h2 := KBucket.addContact_ranges ha
        exact ⟨h1.1.trans h2.1, h1.2.trans h2.2⟩
    · rw [if_neg hk, Option.some_bind] at h
      exact splitCopy_ranges h

theorem splitRemove_ranges :
    ∀ {cs : List Contact} {ob ob2 : KBucket}, splitRemove cs ob = some ob2 →
      ob2.rangeMin = ob.rangeMin ∧ ob2.rangeMax = ob.rangeMax
  | [], ob, ob2, h => by
    cases h
    exact ⟨rfl, rfl⟩
  | c :: cs, ob, ob2, h => by
    rw [splitRemove_cons] at h
    rcases hr : ob.removeContact c.guid with _ | ob1 <;> rw [hr] at h
    · cases h
    · rw [Option.some_bind] at h
      have h1 := splitRemove_ranges h
      have h2 := KBucket.removeContact_ranges hr
      exact ⟨h1.1.trans h2.1, h1.2.trans h2.2⟩

theorem splitBucketL_shape {k now : Nat} {bs : List KBucket} {i : Nat} {bs2 : List KBucket}
    (h : splitBucketL k now bs i = some bs2) :
    ∃ oldB oldB2 newB, bs.get? i = some oldB ∧
      bs2 = (bs.set i oldB2).insertIdx (i + 1) newB ∧
      oldB2.rangeMin = oldB.rangeMin ∧
      oldB2.rangeMax = oldB.rangeMax - (oldB.rangeMax - oldB.rangeMin) / 2 ∧
      newB.rangeMin = oldB.rangeMax - (oldB.rangeMax - oldB.rangeMin) / 2 ∧
      newB.rangeMax = oldB.rangeMax ∧
      splitCopy k now ⟨oldB.rangeMax - (oldB.rangeMax - oldB.rangeMin) / 2,
        oldB.rangeMax, [], now⟩ oldB.contacts = some newB ∧
      splitRemove newB.contacts
        { oldB with rangeMax := oldB.rangeMax - (oldB.rangeMax - oldB.rangeMin) / 2 }
        = some oldB2 := by
  rw [splitBucketL] at h
  rcases hg : bs.get? i with _ | oldB
  · rw [hg] at h
    cases h
  · rw [hg] at h
    dsimp only at h
    rcases hc : splitCopy k now ⟨oldB.rangeMax - (oldB.rangeMax - oldB.rangeMin) / 2,
        oldB.rangeMax, [], now⟩ oldB.contacts with _ | newB
    · rw [hc] at h
      simp at h
    · rw [hc] at h
      dsimp only at h
      rcases hr : splitRemove newB.contacts
          { oldB with rangeMax := oldB.rangeMax - (oldB.rangeMax - oldB.rangeMin) / 2 }
          with _ | oldB2
      · rw [hr] at h
        simp at h
      · rw [hr] at h
        dsimp only at h
        cases h
        have hcr := splitCopy_ranges hc
        have hrr := splitRemove_ranges hr
        exact ⟨oldB, oldB2, newB, rfl, rfl, hrr.1, hrr.2, hcr.1, hcr.2, hc, hr⟩

theorem chainFrom_wf {lo hi : Nat} :
    ∀ {bs : List KBucket} {i : Nat} {b : KBucket}, chainFrom lo hi bs →
      bs.get? i = some b → b.rangeMin ≤ b.rangeMax
  | [], i, b, _, hg => by cases i <;> cases hg
  | b0 :: bs, 0, b, hc, hg => by
    rcases hc with ⟨hmin, hle, _⟩
    simp only [List.get?_cons_zero, Option.some.injEq] at hg
    subst hg
    omega
  | b0 :: bs, i + 1, b, hc, hg => by
    rcases hc with ⟨_, _, hchain⟩
    rw [List.get?_cons_succ] at hg
    exact chainFrom_wf hchain hg

theorem splitBucketL_chain {k now lo hi : Nat} {bs : List KBucket} {i : Nat}
    {bs2 : List KBucket} (hc : chainFrom lo hi bs)
    (h : splitBucketL k now bs i = some bs2) : chainFrom lo hi bs2 := by
  obtain ⟨oldB, oldB2, newB, hg, hbs2, h1, h2, h3, h4, -, -⟩ := splitBucketL_shape h
  subst hbs2
  have hwf := chainFrom_wf hc hg
  apply chainFrom_split_at hc hg h1 (by rw [h3, h2]) h4 <;> omega

theorem get?_getD_of_lt {bs : List KBucket} {i : Nat} (h : i < bs.length) :
    bs.get? i = some (bs.getD i default) := by
  rw [List.get?_eq_getElem?, List.getElem?_eq_getElem h]
  exact congrArg some (List.getD_eq_getElem bs default h).symm

theorem chainFrom_set_getD {lo hi : Nat} {bs : List KBucket} {i : Nat} {b2 : KBucket}
    (hc : chainFrom lo hi bs) (hi2 : i < bs.length)
    (h1 : b2.rangeMin = (bs.getD i default).rangeMin)
    (h2 : b2.rangeMax = (bs.getD i default).rangeMax) :
    chainFrom lo hi (bs.set i b2) :=
  chainFrom_set hc (get?_getD_of_lt hi2) h1 h2

theorem tree_addContact_chain (k lo hi : Nat) : ∀ (gas now : Nat) (ping : PingOutcome)
    (s : TreeRoutingTable) (c : Contact) (r : TreeRoutingTable × List (Option Nat)),
    chainFrom lo hi s.buckets →
    TreeRoutingTable.addContact k gas now ping s c = some r →
    chainFrom lo hi r.1.buckets := by
  intro gas
  induction gas with
  | zero =>
    intro now ping s c r hc h
    rw [TreeRoutingTable.addContact] at h
    by_cases hbeq : (c.guid == some s.parentNodeId) = true
    · rw [if_pos hbeq] at h
      cases h
      exact hc
    · rw [if_neg hbeq] at h
      rcases hidx : kbucketIndexL s.buckets c.guid with _ | i
      · rw [hidx] at h
        cases h
      · rw [hidx] at h
        dsimp only at h
        have hlt : i < s.buckets.length := (kbucketIndexL_some_mem hidx).1
        rcases hget : (s.buckets.getD i default).getContact c.guid with _ | oldc
        · rw [hget] at h
          rcases hadd : (s.buckets.getD i default).addContact k now c with _ | b2
          · rw [hadd] at h
            by_cases hpr : (s.buckets.getD i default).keyInRangeNat s.parentNodeId = true
            · rw [if_pos hpr] at h
              cases h
            · rw [if_neg hpr] at h
              rcases hcts : (s.buckets.getD i default).contacts with _ | ⟨hd, tl⟩
              · rw [hcts] at h
                cases h
              · rw [hcts] at h
                rcases ping with _ | dead
                · cases h
                  exact hc
                · dsimp only at h
                  cases h
          · rw [hadd] at h
            cases h
            have hr := KBucket.addContact_ranges hadd
            exact chainFrom_set_getD hc hlt hr.1 hr.2
        · rw [hget] at h
          cases h
          exact hc
  | succ gas ih =>
    intro now ping s c r hc h
    rw [TreeRoutingTable.addContact] at h
    by_cases hbeq : (c.guid == some s.parentNodeId) = true
    · rw [if_pos hbeq] at h
      cases h
      exact hc
    · rw [if_neg hbeq] at h
      rcases hidx : kbucketIndexL s.buckets c.guid with _ | i
      · rw [hidx] at h
        cases h
      · rw [hidx] at h
        dsimp only at h
        have hlt : i < s.buckets.length := (kbucketIndexL_some_mem hidx).1
        rcases hget : (s.buckets.getD i default).getContact c.guid with _ | oldc
        · rw [hget] at h
          rcases hadd : (s.buckets.getD i default).addContact k now c with _ | b2
          · rw [hadd] at h
            by_cases hpr : (s.buckets.getD i default).keyInRangeNat s.parentNodeId = true
            · rw [if_pos hpr] at h
              rcases hsplit : splitBucketL k now s.buckets i with _ | bs2
              · rw [hsplit] at h
                cases h
              · rw [hsplit] at h
                have hc2 : chainFrom lo hi bs2 := splitBucketL_chain hc hsplit
                exact ih now ping { s with buckets := bs2 } c r hc2 h
            · rw [if_neg hpr] at h
              rcases hcts : (s.buckets.getD i default).contacts with _ | ⟨hd, tl⟩
              · rw [hcts] at h
                cases h
              · rw [hcts] at h
                rcases ping with _ | dead
                · cases h
                  exact hc
                · dsimp only at h
                  set bnew : KBucket := ((s.buckets.getD i default).removeContact (some dead)).getD (s.buckets.getD i default) with hbnew
                  set s2 : TreeRoutingTable := { s with buckets := s.buckets.set i bnew } with hs2
                  rcases hin : TreeRoutingTable.addContact k gas now (PingOutcome.timeout dead) s2 c with _ | r2
                  · rw [hin] at h
                    cases h
                  · rw [hin] at h
                    cases h
                    have hc2 : chainFrom lo hi s2.buckets := by
                      rw [hs2]
                      rcases hrem : (s.buckets.getD i default).removeContact (some dead)
                          with _ | br
                      · rw [hbnew, hrem, Option.getD_none]
                        exact chainFrom_set_getD hc hlt rfl rfl
                      · rw [hbnew, hrem, Option.getD_some]
                        have hr := KBucket.removeContact_ranges hrem
                        exact chainFrom_set_getD hc hlt hr.1 hr.2
                    exact ih now (PingOutcome.timeout dead) s2 c r2 hc2 hin
          · rw [hadd] at h
            cases h
            have hr := KBucket.addContact_ranges hadd
            exact chainFrom_set_getD hc hlt hr.1 hr.2
        · rw [hget] at h
          cases h
          exact hc

theorem tree_removeContact_chain {lo hi : Nat} {s s2 : TreeRoutingTable} {g : Option Nat}
    (hc : chainFrom lo hi s.buckets) (h : s.removeContact g = some s2) :
    chainFrom lo hi s2.buckets := by
  rw [TreeRoutingTable.removeContact] at h
  rcases hidx : kbucketIndexL s.buckets g with _ | i
  · rw [hidx] at h
    cases h
  · rw [hidx] at h
    dsimp only at h
    have hlt : i < s.buckets.length := (kbucketIndexL_some_mem hidx).1
    rcases hrem : (s.buckets.getD i default).removeContact g with _ | b2
    · rw [hrem] at h
      cases h
      exact hc
    · rw [hrem] at h
      cases h
      have hr := KBucket.removeContact_ranges hrem
      exact chainFrom_set_getD hc hlt hr.1 hr.2

theorem treeStep_chain {k lo hi : Nat} {s s2 : TreeRoutingTable} {op : TreeOp}
    (hc : chainFrom lo hi s.buckets) (h : treeStep k s op = some s2) :
    chainFrom lo hi s2.buckets := by
  rcases op with ⟨gas, now, ping, c⟩ | g | ⟨now, i⟩
  · rw [treeStep] at h
    rcases hadd : TreeRoutingTable.addContact k gas now ping s c with _ | r
    · rw [hadd] at h
      cases h
    · rw [hadd] at h
      cases h
      exact tree_addContact_chain k lo hi gas now ping s c r hc hadd
  · exact tree_removeContact_chain hc h
  · rw [treeStep, TreeRoutingTable.splitBucket] at h
    rcases hsp : splitBucketL k now s.buckets i with _ | bs2
    · rw [hsp] at h
      cases h
    · rw [hsp] at h
      cases h
      exact splitBucketL_chain hc hsp

theorem treeRun_chain {k lo hi : Nat} : ∀ {ops : List TreeOp} {s s2 : TreeRoutingTable},
    chainFrom lo hi s.buckets → treeRun k s ops = some s2 → chainFrom lo hi s2.buckets
  | [], s, s2, hc, h => by
    cases h
    exact hc
  | op :: ops, s, s2, hc, h => by
    rw [treeRun] at h
    rcases hst : treeStep k s op with _ | s1
    · rw [hst] at h
      cases h
    · rw [hst] at h
      rw [Option.some_bind] at h
      exact treeRun_chain (treeStep_chain hc hst) h

theorem chainFrom_head {lo hi : Nat} {bs : List KBucket} (hc : chainFrom lo hi bs)
    (hne : bs ≠ []) : ∃ b0, bs.head? = some b0 ∧ b0.rangeMin = lo := by
  rcases bs with _ | ⟨b, bs⟩
  · exact absurd rfl hne
  · exact ⟨b, rfl, hc.1⟩

theorem chainFrom_getLast {lo hi : Nat} : ∀ {bs : List KBucket}, chainFrom lo hi bs →
    bs ≠ [] → ∃ bn, bs.getLast? = some bn ∧ bn.rangeMax = hi
  | [], _, hne => absurd rfl hne
  | [b], hc, _ => by
    refine ⟨b, rfl, ?_⟩
    rcases hc with ⟨-, -, hnil⟩
    exact hnil
  | b :: b1 :: bs, hc, _ => by
    rcases hc with ⟨-, -, hchain⟩
    obtain ⟨bn, hlast, hmax⟩ := chainFrom_getLast hchain (by simp)
    exact ⟨bn, by rw [List.getLast?_cons_cons]; exact hlast, hmax⟩

theorem chainFrom_adjacent {lo hi : Nat} : ∀ {bs : List KBucket} {i : Nat}
    {b b' : KBucket}, chainFrom lo hi bs →
    bs.get? i = some b → bs.get? (i + 1) = some b' → b.rangeMax = b'.rangeMin
  | [], i, b, b', _, hg, _ => by cases i <;> cases hg
  | b0 :: bs, 0, b, b', hc, hg, hg' => by
    rcases hc with ⟨-, -, hchain⟩
    simp only [List.get?_cons_zero, Option.some.injEq] at hg
    subst hg
    rw [List.get?_cons_succ] at hg'
    rcases bs with _ | ⟨b1, bs⟩
    · cases hg'
    · simp only [List.get?_cons_zero, Option.some.injEq] at hg'
      subst hg'
      exact hchain.1.symm
  | b0 :: bs, i + 1, b, b', hc, hg, hg' => by
    rcases hc with ⟨-, -, hchain⟩
    rw [List.get?_cons_succ] at hg hg'
    exact chainFrom_adjacent hchain hg hg'

theorem chainFrom_le_rangeMin {lo hi : Nat} : ∀ {bs : List KBucket} {j : Nat}
    {bj : KBucket}, chainFrom lo hi bs → bs.get? j = some bj → lo ≤ bj.rangeMin
  | [], j, bj, _, hg => by cases j <;> cases hg
  | b :: bs, 0, bj, hc, hg => by
    simp only [List.get?_cons_zero, Option.some.injEq] at hg
    subst hg
    exact hc.1.ge
  | b :: bs, j + 1, bj, hc, hg => by
    rcases hc with ⟨hmin, hle, hchain⟩
    rw [List.get?_cons_succ] at hg
    have := chainFrom_le_rangeMin hchain hg
    omega

theorem chainFrom_unique_cover {lo hi : Nat} : ∀ {bs : List KBucket}, chainFrom lo hi bs →
    ∀ x, lo ≤ x → x < hi →
      ∃! i, ∃ b, bs.get? i = some b ∧ b.keyInRangeNat x = true
  | [], hc, x, hlo, hhi => by
    rw [chainFrom] at hc
    omega
  | b :: bs, hc, x, hlo, hhi => by
    rcases hc with ⟨hmin, hle, hchain⟩
    by_cases hx : x < b.rangeMax
    · refine ⟨0, ⟨b, rfl, by simp [KBucket.keyInRangeNat]; omega⟩, ?_⟩
      rintro j ⟨bj, hgj, hrj⟩
      rcases j with _ | j
      · rfl
      · rw [List.get?_cons_succ] at hgj
        have hge := chainFrom_le_rangeMin hchain hgj
        simp only [KBucket.keyInRangeNat, decide_eq_true_eq] at hrj
        omega
    · push_neg at hx
      obtain ⟨j, ⟨bj, hgj, hrj⟩, huniq⟩ := chainFrom_unique_cover hchain x hx hhi
      refine ⟨j + 1, ⟨bj, by rw [List.get?_cons_succ]; exact hgj, hrj⟩, ?_⟩
      rintro j' ⟨bj', hgj', hrj'⟩
      rcases j' with _ | j'
      · simp only [List.get?_cons_zero, Option.some.injEq] at hgj'
        subst hgj'
        simp only [KBucket.keyInRangeNat, decide_eq_true_eq] at hrj'
        omega
      · rw [List.get?_cons_succ] at hgj'
        exact congrArg Nat.succ (huniq j' ⟨bj', hgj', hrj'⟩)

theorem chainFrom_ne_nil {lo hi : Nat} {bs : List KBucket} (hc : chainFrom lo hi bs)
    (h : lo ≠ hi) : bs ≠ [] := by
  intro hnil
  subst hnil
  exact h hc

/-- C2: from construction on, after every sequence of addContact,
removeContact and splitBucket calls that completes without a crash, the
bucket list partitions [0, 2^B): the first bucket starts at 0, the last
ends at 2^B, each bucket's rangeMax is the next one's rangeMin, and every
id below 2^B lies in exactly one bucket. -/
theorem tree_run_partitions (k parent now0 : Nat) (ops : List TreeOp)
    (s : TreeRoutingTable)
    (h : treeRun k (TreeRoutingTable.init parent now0) ops = some s) :
    (∃ b0, s.buckets.head? = some b0 ∧ b0.rangeMin = 0) ∧
    (∃ bn, s.buckets.getLast? = some bn ∧ bn.rangeMax = 2 ^ BIT_NODE_ID_LEN) ∧
    (∀ i b b', s.buckets.get? i = some b → s.buckets.get? (i + 1) = some b' →
      b.rangeMax = b'.rangeMin) ∧
    (∀ x, x < 2 ^ BIT_NODE_ID_LEN →
      ∃! i, ∃ b, s.buckets.get? i = some b ∧ b.keyInRangeNat x = true) := by
  have hinit : chainFrom 0 (2 ^ BIT_NODE_ID_LEN)
      (TreeRoutingTable.init parent now0).buckets :=
    ⟨rfl, Nat.zero_le _, rfl⟩
  have hc := treeRun_chain hinit h
  have hpos : 0 < 2 ^ BIT_NODE_ID_LEN := Nat.pos_pow_of_pos _ (by norm_num)
  have hne : s.buckets ≠ [] := chainFrom_ne_nil hc (by omega)
  exact ⟨chainFrom_head hc hne, chainFrom_getLast hc hne,
    fun i b b' hg hg' => chainFrom_adjacent hc hg hg',
    fun x hx => chainFrom_unique_cover hc x (Nat.zero_le x) hx⟩

/-- A short operation sequence for the C2 witness: one insertion and one
explicit split of bucket 0. -/
def c2ops : List TreeOp :=
  [TreeOp.add 1 0 PingOutcome.ok ⟨some 5, 1, 0⟩, TreeOp.split 0 0]

/-- The state c2ops produces from a fresh table with parent id 7. -/
def c2state : TreeRoutingTable :=
  ⟨7, [⟨0, 2 ^ 159, [⟨some 5, 1, 0⟩], 0⟩, ⟨2 ^ 159, 2 ^ 160, [], 0⟩]⟩

set_option maxHeartbeats 2000000 in
/-- Closed witness for C2: the concrete run reaches c2state, whose buckets
partition the id space. -/
theorem tree_run_partitions_check :
    treeRun 20 (TreeRoutingTable.init 7 0) c2ops = some c2state ∧
    ((∃ b0, c2state.buckets.head? = some b0 ∧ b0.rangeMin = 0) ∧
    (∃ bn, c2state.buckets.getLast? = some bn ∧ bn.rangeMax = 2 ^ BIT_NODE_ID_LEN) ∧
    (∀ i b b', c2state.buckets.get? i = some b → c2state.buckets.get? (i + 1) = some b' →
      b.rangeMax = b'.rangeMin) ∧
    (∀ x, x < 2 ^ BIT_NODE_ID_LEN →
      ∃! i, ∃ b, c2state.buckets.get? i = some b ∧ b.keyInRangeNat x = true)) :=
  ⟨by decide, tree_run_partitions 20 7 0 c2ops c2state (by decide)⟩

/-! ### C8: the parent id is never stored -/

/-- All contacts of all buckets satisfy P. -/
def bucketsAll (P : Contact → Prop) (bs : List KBucket) : Prop :=
  ∀ b ∈ bs, ∀ c ∈ b.contacts, P c

/-- All contacts of all replacement-cache lists satisfy P. -/
def cacheAll (P : Contact → Prop) (cache : List (Nat × List Contact)) : Prop :=
  ∀ p ∈ cache, ∀ c ∈ p.2, P c

theorem bucketsAll_getD {P : Contact → Prop} {bs : List KBucket} {i : Nat}
    (h : bucketsAll P bs) : ∀ c ∈ (bs.getD i default).contacts, P c := by
  by_cases hlt : i < bs.length
  · intro c hcmem
    refine h _ ?_ c hcmem
    rw [List.getD_eq_getElem _ _ hlt]
    exact List.getElem_mem hlt
  · intro c hcmem
    rw [List.getD_eq_getElem?_getD, List.getElem?_eq_none (by omega)] at hcmem
    cases hcmem

theorem bucketsAll_set {P : Contact → Prop} {bs : List KBucket} {i : Nat} {b2 : KBucket}
    (h : bucketsAll P bs) (h2 : ∀ c ∈ b2.contacts, P c) :
    bucketsAll P (bs.set i b2) := by
  intro b hb
  rcases List.mem_or_eq_of_mem_set hb with hmem | heq
  · exact h b hmem
  · subst heq
    exact h2

theorem kbAddContact_all {P : Contact → Prop} {k now : Nat} {b b2 : KBucket} {c : Contact}
    (h : b.addContact k now c = some b2)
    (hb : ∀ d ∈ b.contacts, P d) (hc : P c) : ∀ d ∈ b2.contacts, P d := by
  rcases hf : b.contacts.find? (fun d => d.guid == c.guid) with _ | d0 <;>
    simp only [KBucket.addContact, hf] at h
  · by_cases hl : b.contacts.length < k
    · rw [if_pos hl] at h
      cases h
      intro d hd
      rcases List.mem_append.mp hd with hd1 | hd1
      · exact hb d hd1
      · rw [List.mem_singleton.mp hd1]
        exact hc
    · rw [if_neg hl] at h
      cases h
  · cases h
    intro d hd
    rcases List.mem_append.mp hd with hd1 | hd1
    · exact hb d ((List.eraseP_sublist b.contacts).subset hd1)
    · rw [List.mem_singleton.mp hd1]
      exact hb d0 (List.mem_of_find?_eq_some hf)

theorem kbRemoveContact_all {P : Contact → Prop} {b b2 : KBucket} {g : Option Nat}
    (h : b.removeContact g = some b2)
    (hb : ∀ d ∈ b.contacts, P d) : ∀ d ∈ b2.contacts, P d := by
  by_cases ha : (b.contacts.any fun c => c.guid == g) = true <;>
    simp only [KBucket.removeContact, ha, if_true, Bool.not_eq_true, if_false,
      reduceIte] at h
  · cases h
    intro d hd
    exact hb d ((List.eraseP_sublist b.contacts).subset hd)
  · cases h

theorem splitCopy_all {P : Contact → Prop} {k now : Nat} :
    ∀ {cs : List Contact} {nb nb2 : KBucket}, splitCopy k now nb cs = some nb2 →
      (∀ d ∈ nb.contacts, P d) → (∀ d ∈ cs, P d) → ∀ d ∈ nb2.contacts, P d
  | [], nb, nb2, h, hnb, _ => by
    cases h
    exact hnb
  | c :: cs, nb, nb2, h, hnb, hcs => by
    rw [splitCopy_cons] at h
    have hcP : P c := hcs c (List.mem_cons_self c cs)
    have hcs' : ∀ d ∈ cs, P d := fun d hd => hcs d (List.mem_cons_of_mem c hd)
    by_cases hk : nb.keyInRange c.guid = true
    · rw [if_pos hk] at h
      rcases ha : nb.addContact k now c with _ | nb1 <;> rw [ha] at h
      · cases h
      · rw [Option.some_bind] at h
        exact splitCopy_all h (kbAddContact_all ha hnb hcP) hcs'
    · rw [if_neg hk, Option.some_bind] at h
      exact splitCopy_all h hnb hcs'

theorem splitRemove_all {P : Contact → Prop} :
    ∀ {cs : List Contact} {ob ob2 : KBucket}, splitRemove cs ob = some ob2 →
      (∀ d ∈ ob.contacts, P d) → ∀ d ∈ ob2.contacts, P d
  | [], ob, ob2, h, hob => by
    cases h
    exact hob
  | c :: cs, ob, ob2, h, hob => by
    rw [splitRemove_cons] at h
    rcases hr : ob.removeContact c.guid with _ | ob1 <;> rw [hr] at h
    · cases h
    · rw [Option.some_bind] at h
      exact splitRemove_all h (kbRemoveContact_all hr hob)

theorem splitBucketL_all {P : Contact → Prop} {k now : Nat} {bs bs2 : List KBucket}
    {i : Nat} (h : splitBucketL k now bs i = some bs2)
    (hall : bucketsAll P bs) : bucketsAll P bs2 := by
  obtain ⟨oldB, oldB2, newB, hg, hbs2, -, -, -, -, hcopy, hrem⟩ := splitBucketL_shape h
  subst hbs2
  have hlt : i < bs.length := get?_some_lt hg
  have holdmem : oldB ∈ bs := by
    obtain ⟨hl, he⟩ := List.get?_eq_some.mp hg
    rw [← he]
    exact List.get_mem bs i hl
  have holdall : ∀ d ∈ oldB.contacts, P d := hall oldB holdmem
  have hnew : ∀ d ∈ newB.contacts, P d :=
    splitCopy_all hcopy (by intro d hd; cases hd) holdall
  have hold2 : ∀ d ∈ oldB2.contacts, P d := splitRemove_all hrem holdall
  intro b hb
  rw [List.mem_insertIdx (by rw [List.length_set]; omega)] at hb
  rcases hb with hb | hb
  · subst hb
    exact hnew
  · rcases List.mem_or_eq_of_mem_set hb with hmem | heq
    · exact hall b hmem
    · subst heq
      exact hold2

theorem cacheAll_rcSet {P : Contact → Prop} :
    ∀ {cache : List (Nat × List Contact)} {i : Nat} {l : List Contact},
      cacheAll P cache → (∀ d ∈ l, P d) → cacheAll P (rcSet cache i l)
  | [], i, l, _, hl => by
    intro p hp
    simp only [rcSet] at hp
    rw [List.mem_singleton.mp hp]
    exact hl
  | q :: cache, i, l, hc, hl => by
    intro p hp
    simp only [rcSet] at hp
    by_cases hq : (q.1 == i) = true <;> simp only [hq, if_true, Bool.false_eq_true,
        if_false, reduceIte] at hp
    · rcases List.mem_cons.mp hp with hp1 | hp1
      · subst hp1
        exact hl
      · exact hc p (List.mem_cons_of_mem q hp1)
    · rcases List.mem_cons.mp hp with hp1 | hp1
      · subst hp1
        exact hc p (List.mem_cons_self p cache)
      · exact cacheAll_rcSet (fun r hr => hc r (List.mem_cons_of_mem q hr)) hl p hp1

theorem cacheAll_rcGet {P : Contact → Prop} {cache : List (Nat × List Contact)} {i : Nat}
    (hc : cacheAll P cache) : ∀ d ∈ rcGet cache i, P d := by
  intro d hd
  rw [rcGet] at hd
  rcases hf : cache.find? (fun p => p.1 == i) with _ | p <;> rw [hf] at hd
  · simp at hd
  · exact hc p (List.mem_of_find?_eq_some hf) d (by simpa using hd)

theorem cacheAll_rcErase {P : Contact → Prop} {cache : List (Nat × List Contact)} {i : Nat}
    (hc : cacheAll P cache) : cacheAll P (rcErase cache i) :=
  fun p hp => hc p (List.mem_filter.mp hp).1

theorem cacheInsert_all {P : Contact → Prop} {k : Nat}
    {cache cache2 : List (Nat × List Contact)} {i : Nat} {c : Contact}
    (h : cacheInsert k cache i c = some cache2)
    (hc : cacheAll P cache) (hP : P c) : cacheAll P cache2 := by
  have hc1 : cacheAll P (if rcMem cache i then cache else rcSet cache i []) := by
    split
    · exact hc
    · exact cacheAll_rcSet hc (by intro d hd; cases hd)
  rw [cacheInsert] at h
  revert hc1
  generalize (if rcMem cache i then cache else rcSet cache i []) = cache1 at h
  intro hc1
  split at h
  · rw [Option.some_bind] at h
    have hS1 : cacheAll P (rcSet cache1 i
        ((rcGet cache1 i).eraseP (fun d => d.guid == c.guid))) :=
      cacheAll_rcSet hc1 (fun d hd => cacheAll_rcGet hc1 d ((List.eraseP_sublist _).subset hd))
    split at h
    · cases h
      refine cacheAll_rcSet hS1 ?_
      intro d hd
      rcases List.mem_append.mp hd with hd1 | hd1
      · exact cacheAll_rcGet hS1 d hd1
      · rw [List.mem_singleton.mp hd1]
        exact hP
    · cases h
  · split at h
    · split at h
      · rw [Option.some_bind] at h
        have hS2 : cacheAll P (rcErase cache1 0) := cacheAll_rcErase hc1
        split at h
        · cases h
          refine cacheAll_rcSet hS2 ?_
          intro d hd
          rcases List.mem_append.mp hd with hd1 | hd1
          · exact cacheAll_rcGet hS2 d hd1
          · rw [List.mem_singleton.mp hd1]
            exact hP
        · cases h
      · rw [Option.none_bind] at h
        cases h
    · rw [Option.some_bind] at h
      split at h
      · cases h
        refine cacheAll_rcSet hc1 ?_
        intro d hd
        rcases List.mem_append.mp hd with hd1 | hd1
        · exact cacheAll_rcGet hc1 d hd1
        · rw [List.mem_singleton.mp hd1]
          exact hP
      · cases h

/-- The T4 invariant for the base table: the parent id is fixed and no
stored contact carries it. -/
def treeOK (parent : Nat) (s : TreeRoutingTable) : Prop :=
  s.parentNodeId = parent ∧ bucketsAll (fun c => c.guid ≠ some parent) s.buckets

/-- The T4 invariant for the optimized table: the parent id is fixed and
neither the buckets nor the replacement cache store a contact carrying it. -/
def optOK (parent : Nat) (s : OptimizedTreeRoutingTable) : Prop :=
  s.parentNodeId = parent ∧ bucketsAll (fun c => c.guid ≠ some parent) s.buckets ∧
    cacheAll (fun c => c.guid ≠ some parent) s.replacement_cache

theorem tree_addContact_OK (k parent : Nat) : ∀ (gas now : Nat) (ping : PingOutcome)
    (s : TreeRoutingTable) (c : Contact) (r : TreeRoutingTable × List (Option Nat)),
    treeOK parent s →
    TreeRoutingTable.addContact k gas now ping s c = some r →
    treeOK parent r.1 := by
  intro gas
  induction gas with
  | zero =>
    intro now ping s c r hok h
    rw [TreeRoutingTable.addContact] at h
    by_cases hbeq : (c.guid == some s.parentNodeId) = true
    · rw [if_pos hbeq] at h
      cases h
      exact hok
    · rw [if_neg hbeq] at h
      have hcP : c.guid ≠ some parent := by
        rw [← hok.1]
        intro he
        exact hbeq (by rw [he]; exact beq_self_eq_true _)
      rcases hidx : kbucketIndexL s.buckets c.guid with _ | i
      · rw [hidx] at h
        cases h
      · rw [hidx] at h
        dsimp only at h
        rcases hget : (s.buckets.getD i default).getContact c.guid with _ | oldc
        · rw [hget] at h
          rcases hadd : (s.buckets.getD i default).addContact k now c with _ | b2
          · rw [hadd] at h
            by_cases hpr : (s.buckets.getD i default).keyInRangeNat s.parentNodeId = true
            · rw [if_pos hpr] at h
              cases h
            · rw [if_neg hpr] at h
              rcases hcts : (s.buckets.getD i default).contacts with _ | ⟨hd, tl⟩
              · rw [hcts] at h
                cases h
              · rw [hcts] at h
                rcases ping with _ | dead
                · cases h
                  exact hok
                · dsimp only at h
                  cases h
          · rw [hadd] at h
            cases h
            exact ⟨hok.1, bucketsAll_set hok.2
              (kbAddContact_all hadd (bucketsAll_getD hok.2) hcP)⟩
        · rw [hget] at h
          cases h
          exact hok
  | succ gas ih =>
    intro now ping s c r hok h
    rw [TreeRoutingTable.addContact] at h
    by_cases hbeq : (c.guid == some s.parentNodeId) = true
    · rw [if_pos hbeq] at h
      cases h
      exact hok
    · rw [if_neg hbeq] at h
      have hcP : c.guid ≠ some parent := by
        rw [← hok.1]
        intro he
        exact hbeq (by rw [he]; exact beq_self_eq_true _)
      rcases hidx : kbucketIndexL s.buckets c.guid with _ | i
      · rw [hidx] at h
        cases h
      · rw [hidx] at h
        dsimp only at h
        rcases hget : (s.buckets.getD i default).getContact c.guid with _ | oldc
        · rw [hget] at h
          rcases hadd : (s.buckets.getD i default).addContact k now c with _ | b2
          · rw [hadd] at h
            by_cases hpr : (s.buckets.getD i default).keyInRangeNat s.parentNodeId = true
            · rw [if_pos hpr] at h
              rcases hsplit : splitBucketL k now s.buckets i with _ | bs2
              · rw [hsplit] at h
                cases h
              · rw [hsplit] at h
                have hok2 : treeOK parent { s with buckets := bs2 } :=
                  ⟨hok.1, splitBucketL_all hsplit hok.2⟩
                exact ih now ping { s with buckets := bs2 } c r hok2 h
            · rw [if_neg hpr] at h
              rcases hcts : (s.buckets.getD i default).contacts with _ | ⟨hd, tl⟩
              · rw [hcts] at h
                cases h
              · rw [hcts] at h
                rcases ping with _ | dead
                · cases h
                  exact hok
                · dsimp only at h
                  set bnew : KBucket := ((s.buckets.getD i default).removeContact (some dead)).getD (s.buckets.getD i default) with hbnew
                  set s2 : TreeRoutingTable := { s with buckets := s.buckets.set i bnew } with hs2
                  rcases hin : TreeRoutingTable.addContact k gas now (PingOutcome.timeout dead) s2 c with _ | r2
                  · rw [hin] at h
                    cases h
                  · rw [hin] at h
                    cases h
                    have hok2 : treeOK parent s2 := by
                      refine ⟨hok.1, ?_⟩
                      rw [hs2]
                      refine bucketsAll_set hok.2 ?_
                      rw [hbnew]
                      rcases hrem : (s.buckets.getD i default).removeContact (some dead)
                          with _ | br
                      · rw [Option.getD_none]
                        exact bucketsAll_getD hok.2
                      · rw [Option.getD_some]
                        exact kbRemoveContact_all hrem (bucketsAll_getD hok.2)
                    exact ih now (PingOutcome.timeout dead) s2 c r2 hok2 hin
          · rw [hadd] at h
            cases h
            exact ⟨hok.1, bucketsAll_set hok.2
              (kbAddContact_all hadd (bucketsAll_getD hok.2) hcP)⟩
        · rw [hget] at h
          cases h
          exact hok

theorem mem_of_getLast?_contact {l : List Contact} {a : Contact}
    (h : l.getLast? = some a) : a ∈ l := by
  rw [List.getLast?_eq_getElem?] at h
  obtain ⟨hlt, he⟩ := List.getElem?_eq_some.mp h
  rw [← he]
  exact List.getElem_mem hlt

theorem opt_removeContact_OK {k now parent : Nat} {s s2 : OptimizedTreeRoutingTable}
    {g : Option Nat} (hok : optOK parent s)
    (h : s.removeContact k now g = some s2) : optOK parent s2 := by
  rw [OptimizedTreeRoutingTable.removeContact] at h
  rcases hidx : kbucketIndexL s.buckets g with _ | i
  · rw [hidx] at h
    cases h
  · rw [hidx] at h
    dsimp only at h
    rcases hrem : (s.buckets.getD i default).removeContact g with _ | b2
    · rw [hrem] at h
      cases h
      exact hok
    · rw [hrem] at h
      dsimp only at h
      by_cases hcond : (rcMem s.replacement_cache i
          && decide (0 < (rcGet s.replacement_cache i).length)) = true
      · rw [if_pos hcond] at h
        rcases hlast : (rcGet s.replacement_cache i).getLast? with _ | promoted
        · rw [hlast] at h
          cases h
        · rw [hlast] at h
          dsimp only at h
          rcases hadd : b2.addContact k now promoted with _ | b3
          · rw [hadd] at h
            cases h
          · rw [hadd] at h
            cases h
            have hprom : promoted ∈ rcGet s.replacement_cache i :=
              mem_of_getLast?_contact hlast
            refine ⟨hok.1, bucketsAll_set hok.2.1
                (kbAddContact_all hadd
                  (kbRemoveContact_all hrem (bucketsAll_getD hok.2.1))
                  (cacheAll_rcGet hok.2.2 promoted hprom)), ?_⟩
            exact cacheAll_rcSet hok.2.2
              (fun d hd => cacheAll_rcGet hok.2.2 d (List.dropLast_subset _ hd))
      · rw [if_neg hcond] at h
        cases h
        exact ⟨hok.1, bucketsAll_set hok.2.1
          (kbRemoveContact_all hrem (bucketsAll_getD hok.2.1)), hok.2.2⟩

theorem opt_addContact_OK (k parent : Nat) : ∀ (gas now : Nat)
    (s : OptimizedTreeRoutingTable) (c : Contact) (s2 : OptimizedTreeRoutingTable),
    optOK parent s →
    (OptimizedTreeRoutingTable.addContact k gas now s c).1 = some s2 →
    optOK parent s2 := by
  have main : ∀ (gas : Nat),
      (∀ now s c s2, optOK parent s →
        (OptimizedTreeRoutingTable.addContact k gas now s c).1 = some s2 →
        optOK parent s2) := by
    intro gas
    induction gas with
    | zero =>
      intro now s c s2 hok h
      rw [OptimizedTreeRoutingTable.addContact] at h
      rcases hg : c.guid with _ | g
      · rw [hg] at h
        cases h
        exact hok
      · rw [hg] at h
        dsimp only at h
        by_cases hbeq : (c.guid == some s.parentNodeId) = true
        · rw [hg] at hbeq
          rw [if_pos hbeq] at h
          cases h
          exact hok
        · rw [hg] at hbeq
          rw [if_neg hbeq] at h
          have hcP : (⟨some g, c.address, 0⟩ : Contact).guid ≠ some parent := by
            show some g ≠ some parent
            rw [← hok.1]
            exact fun he => hbeq (by rw [he]; exact beq_self_eq_true _)
          rcases hidx : kbucketIndexL s.buckets (some g) with _ | i
          · rw [hidx] at h
            cases h
          · rw [hidx] at h
            dsimp only at h
            rcases hget : (s.buckets.getD i default).getContact (some g) with _ | oldC
            · rw [hget] at h
              dsimp only at h
              rcases hadd : (s.buckets.getD i default).addContact k now
                  (⟨some g, c.address, 0⟩ : Contact) with _ | b2
              · rw [hadd] at h
                dsimp only at h
                by_cases hpr : (s.buckets.getD i default).keyInRangeNat s.parentNodeId = true
                · rw [if_pos hpr] at h
                  cases h
                · rw [if_neg hpr] at h
                  dsimp only at h
                  rcases hci : cacheInsert k s.replacement_cache i
                      (⟨some g, c.address, 0⟩ : Contact) with _ | rc
                  · rw [hci] at h
                    cases h
                  · rw [hci] at h
                    cases h
                    exact ⟨hok.1, hok.2.1, cacheInsert_all hci hok.2.2 hcP⟩
              · rw [hadd] at h
                cases h
                refine ⟨hok.1, bucketsAll_set hok.2.1 ?_, hok.2.2⟩
                exact kbAddContact_all hadd (bucketsAll_getD hok.2.1) hcP
            · rw [hget] at h
              dsimp only at h
              by_cases haddr : (oldC.address != c.address) = true
              · rw [if_pos haddr] at h
                rcases hremS : OptimizedTreeRoutingTable.removeContact k now s (some g)
                    with _ | s3
                · rw [hremS] at h
                  cases h
                · rw [hremS] at h
                  dsimp only at h
                  have hok3 : optOK parent s3 := opt_removeContact_OK hok hremS
                  rcases hadd : (s3.buckets.getD i default).addContact k now
                      (⟨some g, c.address, 0⟩ : Contact) with _ | b4
                  · rw [hadd] at h
                    dsimp only at h
                    by_cases hpr : (s3.buckets.getD i default).keyInRangeNat s3.parentNodeId = true
                    · rw [if_pos hpr] at h
                      cases h
                    · rw [if_neg hpr] at h
                      dsimp only at h
                      rcases hci : cacheInsert k s3.replacement_cache i
                          (⟨some g, c.address, 0⟩ : Contact) with _ | rc
                      · rw [hci] at h
                        cases h
                      · rw [hci] at h
                        cases h
                        exact ⟨hok3.1, hok3.2.1,
                          cacheInsert_all hci hok3.2.2 hcP⟩
                  · rw [hadd] at h
                    cases h
                    refine ⟨hok3.1, bucketsAll_set hok3.2.1 ?_, hok3.2.2⟩
                    exact kbAddContact_all hadd (bucketsAll_getD hok3.2.1) hcP
              · rw [if_neg haddr] at h
                cases h
                exact hok
    | succ gas ih =>
      intro now s c s2 hok h
      rw [OptimizedTreeRoutingTable.addContact] at h
      rcases hg : c.guid with _ | g
      · rw [hg] at h
        cases h
        exact hok
      · rw [hg] at h
        dsimp only at h
        by_cases hbeq : (c.guid == some s.parentNodeId) = true
        · rw [hg] at hbeq
          rw [if_pos hbeq] at h
          cases h
          exact hok
        · rw [hg] at hbeq
          rw [if_neg hbeq] at h
          have hcP : (⟨some g, c.address, 0⟩ : Contact).guid ≠ some parent := by
            show some g ≠ some parent
            rw [← hok.1]
            exact fun he => hbeq (by rw [he]; exact beq_self_eq_true _)
          rcases hidx : kbucketIndexL s.buckets (some g) with _ | i
          · rw [hidx] at h
            cases h
          · rw [hidx] at h
            dsimp only at h
            rcases hget : (s.buckets.getD i default).getContact (some g) with _ | oldC
            · rw [hget] at h
              dsimp only at h
              rcases hadd : (s.buckets.getD i default).addContact k now
                  (⟨some g, c.address, 0⟩ : Contact) with _ | b2
              · rw [hadd] at h
                dsimp only at h
                by_cases hpr : (s.buckets.getD i default).keyInRangeNat s.parentNodeId = true
                · rw [if_pos hpr] at h
                  rcases hsplit : splitBucketL k now s.buckets i with _ | bs2
                  · rw [hsplit] at h
                    cases h
                  · rw [hsplit] at h
                    dsimp only at h
                    have hok2 : optOK parent { s with buckets := bs2 } :=
                      ⟨hok.1, splitBucketL_all hsplit hok.2.1, hok.2.2⟩
                    exact ih now { s with buckets := bs2 } (⟨some g, c.address, 0⟩ : Contact) s2 hok2 h
                · rw [if_neg hpr] at h
                  dsimp only at h
                  rcases hci : cacheInsert k s.replacement_cache i
                      (⟨some g, c.address, 0⟩ : Contact) with _ | rc
                  · rw [hci] at h
                    cases h
                  · rw [hci] at h
                    cases h
                    exact ⟨hok.1, hok.2.1, cacheInsert_all hci hok.2.2 hcP⟩
              · rw [hadd] at h
                cases h
                refine ⟨hok.1, bucketsAll_set hok.2.1 ?_, hok.2.2⟩
                exact kbAddContact_all hadd (bucketsAll_getD hok.2.1) hcP
            · rw [hget] at h
              dsimp only at h
              by_cases haddr : (oldC.address != c.address) = true
              · rw [if_pos haddr] at h
                rcases hremS : OptimizedTreeRoutingTable.removeContact k now s (some g)
                    with _ | s3
                · rw [hremS] at h
                  cases h
                · rw [hremS] at h
                  dsimp only at h
                  have hok3 : optOK parent s3 := opt_removeContact_OK hok hremS
                  rcases hadd : (s3.buckets.getD i default).addContact k now
                      (⟨some g, c.address, 0⟩ : Contact) with _ | b4
                  · rw [hadd] at h
                    dsimp only at h
                    by_cases hpr : (s3.buckets.getD i default).keyInRangeNat s3.parentNodeId = true
                    · rw [if_pos hpr] at h
                      rcases hsplit : splitBucketL k now s3.buckets i with _ | bs2
                      · rw [hsplit] at h
                        cases h
                      · rw [hsplit] at h
                        dsimp only at h
                        have hok4 : optOK parent { s3 with buckets := bs2 } :=
                          ⟨hok3.1, splitBucketL_all hsplit hok3.2.1, hok3.2.2⟩
                        exact ih now { s3 with buckets := bs2 } (⟨some g, c.address, 0⟩ : Contact) s2 hok4 h
                    · rw [if_neg hpr] at h
                      dsimp only at h
                      rcases hci : cacheInsert k s3.replacement_cache i
                          (⟨some g, c.address, 0⟩ : Contact) with _ | rc
                      · rw [hci] at h
                        cases h
                      · rw [hci] at h
                        cases h
                        exact ⟨hok3.1, hok3.2.1, cacheInsert_all hci hok3.2.2 hcP⟩
                  · rw [hadd] at h
                    cases h
                    refine ⟨hok3.1, bucketsAll_set hok3.2.1 ?_, hok3.2.2⟩
                    exact kbAddContact_all hadd (bucketsAll_getD hok3.2.1) hcP
              · rw [if_neg haddr] at h
                cases h
                exact hok
  exact fun gas => main gas

theorem tree_removeContact_OK {parent : Nat} {s s2 : TreeRoutingTable} {g : Option Nat}
    (hok : treeOK parent s) (h : s.removeContact g = some s2) : treeOK parent s2 := by
  rw [TreeRoutingTable.removeContact] at h
  rcases hidx : kbucketIndexL s.buckets g with _ | i
  · rw [hidx] at h
    cases h
  · rw [hidx] at h
    dsimp only at h
    rcases hrem : (s.buckets.getD i default).removeContact g with _ | b2
    · rw [hrem] at h
      cases h
      exact hok
    · rw [hrem] at h
      cases h
      exact ⟨hok.1, bucketsAll_set hok.2
        (kbRemoveContact_all hrem (bucketsAll_getD hok.2))⟩

theorem treeStep_OK {k parent : Nat} {s s2 : TreeRoutingTable} {op : TreeOp}
    (hok : treeOK parent s) (h : treeStep k s op = some s2) : treeOK parent s2 := by
  rcases op with ⟨gas, now, ping, c⟩ | g | ⟨now, i⟩
  · rw [treeStep] at h
    rcases hadd : TreeRoutingTable.addContact k gas now ping s c with _ | r
    · rw [hadd] at h
      cases h
    · rw [hadd] at h
      cases h
      exact tree_addContact_OK k parent gas now ping s c r hok hadd
  · exact tree_removeContact_OK hok h
  · rw [treeStep, TreeRoutingTable.splitBucket] at h
    rcases hsp : splitBucketL k now s.buckets i with _ | bs2
    · rw [hsp] at h
      cases h
    · rw [hsp] at h
      cases h
      exact ⟨hok.1, splitBucketL_all hsp hok.2⟩

theorem treeRun_OK {k parent : Nat} : ∀ {ops : List TreeOp} {s s2 : TreeRoutingTable},
    treeOK parent s → treeRun k s ops = some s2 → treeOK parent s2
  | [], s, s2, hok, h => by
    cases h
    exact hok
  | op :: ops, s, s2, hok, h => by
    rw [treeRun] at h
    rcases hst : treeStep k s op with _ | s1
    · rw [hst] at h
      cases h
    · rw [hst] at h
      rw [Option.some_bind] at h
      exact treeRun_OK (treeStep_OK hok hst) h

theorem optStep_OK {k parent : Nat} {s s2 : OptimizedTreeRoutingTable} {op : OptOp}
    (hok : optOK parent s) (h : optStep k s op = some s2) : optOK parent s2 := by
  rcases op with ⟨gas, now, c⟩ | ⟨now, g⟩ | ⟨now, i⟩
  · exact opt_addContact_OK k parent gas now s c s2 hok h
  · exact opt_removeContact_OK hok h
  · rw [optStep] at h
    rcases hsp : splitBucketL k now s.buckets i with _ | bs2
    · rw [hsp] at h
      cases h
    · rw [hsp] at h
      cases h
      exact ⟨hok.1, splitBucketL_all hsp hok.2.1, hok.2.2⟩

theorem optRun_OK {k parent : Nat} : ∀ {ops : List OptOp} {s s2 : OptimizedTreeRoutingTable},
    optOK parent s → optRun k s ops = some s2 → optOK parent s2
  | [], s, s2, hok, h => by
    cases h
    exact hok
  | op :: ops, s, s2, hok, h => by
    rw [optRun] at h
    rcases hst : optStep k s op with _ | s1
    · rw [hst] at h
      cases h
    · rw [hst] at h
      rw [Option.some_bind] at h
      exact optRun_OK (optStep_OK hok hst) h

/-- C8: in both table variants, addContact of a contact whose guid equals
the local parentNodeId returns at once, changing no bucket, cache, or the
contact; consequently, from construction on, the parent id is never stored
as a contact in any bucket (nor, in the optimized table, in any replacement
cache) after any completed sequence of operations. -/
theorem addContact_self_is_noop_and_parent_never_stored :
    (∀ (k gas now : Nat) (ping : PingOutcome) (s : TreeRoutingTable) (c : Contact),
      c.guid = some s.parentNodeId →
      TreeRoutingTable.addContact k gas now ping s c = some (s, [])) ∧
    (∀ (k gas now : Nat) (s : OptimizedTreeRoutingTable) (c : Contact),
      c.guid = some s.parentNodeId →
      OptimizedTreeRoutingTable.addContact k gas now s c = (some s, c)) ∧
    (∀ (k parent now0 : Nat) (ops : List TreeOp) (s : TreeRoutingTable),
      treeRun k (TreeRoutingTable.init parent now0) ops = some s →
      ∀ b ∈ s.buckets, ∀ c ∈ b.contacts, c.guid ≠ some parent) ∧
    (∀ (k parent now0 : Nat) (ops : List OptOp) (s : OptimizedTreeRoutingTable),
      optRun k (OptimizedTreeRoutingTable.init parent now0) ops = some s →
      (∀ b ∈ s.buckets, ∀ c ∈ b.contacts, c.guid ≠ some parent) ∧
      (∀ p ∈ s.replacement_cache, ∀ c ∈ p.2, c.guid ≠ some parent)) := by
  refine ⟨?_, ?_, ?_, ?_⟩
  · intro k gas now ping s c hguid
    rw [TreeRoutingTable.addContact]
    rw [if_pos (by rw [hguid]; exact beq_self_eq_true _)]
  · intro k gas now s c hguid
    rw [OptimizedTreeRoutingTable.addContact]
    rcases hg : c.guid with _ | g
    · rfl
    · rw [if_pos (by rw [hg.symm.trans hguid]; exact beq_self_eq_true _)]
  · intro k parent now0 ops s h
    have hinit : treeOK parent (TreeRoutingTable.init parent now0) := by
      refine ⟨rfl, ?_⟩
      intro b hb c hc
      rw [List.mem_singleton.mp hb] at hc
      cases hc
    exact (treeRun_OK hinit h).2
  · intro k parent now0 ops s h
    have hinit : optOK parent (OptimizedTreeRoutingTable.init parent now0) := by
      refine ⟨rfl, ?_, ?_⟩
      · intro b hb c hc
        rw [List.mem_singleton.mp hb] at hc
        cases hc
      · intro p hp
        cases hp
    obtain ⟨-, h1, h2⟩ := optRun_OK hinit h
    exact ⟨h1, h2⟩

/-- The optimized-table state reached by c4ops from a fresh table with
parent id 0 and k = 2. -/
def c8state : OptimizedTreeRoutingTable :=
  ⟨0, [⟨0, 2 ^ 159, [], 0⟩,
    ⟨2 ^ 159, 2 ^ 160, [⟨some (2 ^ 159), 0, 0⟩, ⟨some (2 ^ 159 + 1), 1, 0⟩], 0⟩],
    [(1, [⟨some (2 ^ 159 + 2), 2, 0⟩, ⟨some (2 ^ 159 + 3), 3, 0⟩, ⟨some (2 ^ 159 + 4), 4, 0⟩])]⟩

set_option maxHeartbeats 2000000 in
/-- Closed witness for C8: the self-add is a no-op on concrete tables of
both variants, and two concrete completed runs store the parent nowhere. -/
theorem addContact_self_is_noop_check :
    ((⟨some 0, 9, 9⟩ : Contact).guid = some c5table.parentNodeId ∧
      TreeRoutingTable.addContact 2 3 5 PingOutcome.ok c5table ⟨some 0, 9, 9⟩
        = some (c5table, [])) ∧
    (OptimizedTreeRoutingTable.addContact 2 3 5 (OptimizedTreeRoutingTable.init 4 0)
        ⟨some 4, 9, 9⟩ = (some (OptimizedTreeRoutingTable.init 4 0), ⟨some 4, 9, 9⟩)) ∧
    (treeRun 20 (TreeRoutingTable.init 7 0) c2ops = some c2state ∧
      ∀ b ∈ c2state.buckets, ∀ c ∈ b.contacts, c.guid ≠ some 7) ∧
    ((∀ b ∈ c8state.buckets, ∀ c ∈ b.contacts, c.guid ≠ some 0) ∧
      (∀ p ∈ c8state.replacement_cache, ∀ c ∈ p.2, c.guid ≠ some 0)) :=
  ⟨⟨rfl, addContact_self_is_noop_and_parent_never_stored.1 2 3 5 PingOutcome.ok
      c5table ⟨some 0, 9, 9⟩ rfl⟩,
    addContact_self_is_noop_and_parent_never_stored.2.1 2 3 5
      (OptimizedTreeRoutingTable.init 4 0) ⟨some 4, 9, 9⟩ rfl,
    ⟨by decide, addContact_self_is_noop_and_parent_never_stored.2.2.1 20 7 0 c2ops
      c2state (by decide)⟩,
    addContact_self_is_noop_and_parent_never_stored.2.2.2 2 0 0 c4ops c8state
      (by decide)⟩

/-! ### C7: removeContact promotes the replacement-cache tail -/

/-- C7 (the intended semantics per spec §4.2/§9 — the source's membership
test misspells the field as replacementCache): when the optimized
removeContact actually removes a contact (leaving bucket b2) and the
bucket's replacement cache is non-empty, the cache tail is popped and
inserted into the bucket; when the cache is empty or absent, the bucket is
simply left one contact smaller.  The insertion hypotheses (the promoted
guid is not already in the bucket, and the bucket is below capacity) hold
in every state satisfying the table invariants. -/
theorem opt_removeContact_promotes_tail
    (k now : Nat) (s : OptimizedTreeRoutingTable) (g : Option Nat) (i : Nat)
    (b2 : KBucket)
    (hidx : kbucketIndexL s.buckets g = some i)
    (hrem : (s.buckets.getD i default).removeContact g = some b2) :
    (∀ cs tl, rcMem s.replacement_cache i = true →
      rcGet s.replacement_cache i = cs ++ [tl] →
      (∀ d ∈ b2.contacts, (d.guid == tl.guid) = false) →
      b2.contacts.length < k →
      s.removeContact k now g = some { s with buckets := s.buckets.set i { b2 with contacts := b2.contacts ++ [tl], lastAccessed := now }, replacement_cache := rcSet s.replacement_cache i cs }) ∧
    (rcGet s.replacement_cache i = [] →
      s.removeContact k now g = some { s with buckets := s.buckets.set i b2 }) := by
  constructor
  · intro cs tl hmem hcs hnot hlen
    rw [OptimizedTreeRoutingTable.removeContact, hidx]
    dsimp only
    rw [hrem]
    dsimp only
    have hcond : (rcMem s.replacement_cache i
        && decide (0 < (rcGet s.replacement_cache i).length)) = true := by
      rw [hmem, hcs]
      simp
    rw [if_pos hcond, hcs, List.getLast?_concat]
    dsimp only
    have hfind : b2.contacts.find? (fun d => d.guid == tl.guid) = none :=
      List.find?_eq_none.mpr (fun d hd => by rw [hnot d hd]; exact Bool.false_ne_true)
    have haddtl : b2.addContact k now tl = some { b2 with contacts := b2.contacts ++ [tl], lastAccessed := now } := by
      simp only [KBucket.addContact, hfind, hlen, if_true]
    rw [haddtl]
    dsimp only
    rw [List.dropLast_concat]
  · intro hempty
    rw [OptimizedTreeRoutingTable.removeContact, hidx]
    dsimp only
    rw [hrem]
    dsimp only
    rw [if_neg (by rw [hempty]; simp)]

/-- A concrete optimized table with one cached contact, for the C7 witness. -/
def c7table : OptimizedTreeRoutingTable :=
  ⟨0, [⟨0, 16, [⟨some 1, 1, 5⟩, ⟨some 2, 2, 5⟩], 3⟩], [(0, [⟨some 3, 3, 0⟩])]⟩

/-- The same table with an empty replacement cache. -/
def c7tableEmpty : OptimizedTreeRoutingTable :=
  ⟨0, [⟨0, 16, [⟨some 1, 1, 5⟩, ⟨some 2, 2, 5⟩], 3⟩], []⟩

/-- Closed witness for C7: removing guid 1 promotes the cached tail (guid 3)
into the bucket and pops it from the cache; with an empty cache the bucket
is just left one smaller. -/
theorem opt_removeContact_promotes_tail_check :
    c7table.removeContact 2 9 (some 1)
        = some ⟨0, [⟨0, 16, [⟨some 2, 2, 5⟩, ⟨some 3, 3, 0⟩], 9⟩], [(0, [])]⟩ ∧
    c7tableEmpty.removeContact 2 9 (some 1)
        = some ⟨0, [⟨0, 16, [⟨some 2, 2, 5⟩], 3⟩], []⟩ :=
  ⟨(opt_removeContact_promotes_tail 2 9 c7table (some 1) 0
      ⟨0, 16, [⟨some 2, 2, 5⟩], 3⟩ (by decide) (by decide)).1
      [] ⟨some 3, 3, 0⟩ (by decide) rfl (by decide) (by decide),
    (opt_removeContact_promotes_tail 2 9 c7tableEmpty (some 1) 0
      ⟨0, 16, [⟨some 2, 2, 5⟩], 3⟩ (by decide) (by decide)).2 rfl⟩

/-! ### C3: splitBucket moves exactly the upper-half contacts, in order -/

/-- Whether a contact's guid is at least mid (the claim's "guid ≥ mid"). -/
def guidGE (mid : Nat) (c : Contact) : Bool :=
  match c.guid with
  | none => false
  | some g => decide (mid ≤ g)

theorem splitCopy_filter {k now : Nat} :
    ∀ (cs : List Contact) (nb : KBucket),
      (∀ c ∈ cs, ∀ d ∈ nb.contacts, (d.guid == c.guid) = false) →
      (cs.map Contact.guid).Nodup →
      nb.contacts.length + cs.length ≤ k →
      ∃ nb2, splitCopy k now nb cs = some nb2 ∧
        nb2.contacts = nb.contacts ++ cs.filter (fun c => nb.keyInRange c.guid) ∧
        nb2.rangeMin = nb.rangeMin ∧ nb2.rangeMax = nb.rangeMax ∧
        (nb2.lastAccessed = now ∨ nb2.lastAccessed = nb.lastAccessed)
  | [], nb, _, _, _ => ⟨nb, rfl, by simp, rfl, rfl, Or.inr rfl⟩
  | c :: cs, nb, hsep, hnodup, hlen => by
    rw [List.map_cons, List.nodup_cons] at hnodup
    by_cases hk : nb.keyInRange c.guid = true
    · have hfind : nb.contacts.find? (fun d => d.guid == c.guid) = none :=
        List.find?_eq_none.mpr (fun d hd => by
          rw [hsep c (List.mem_cons_self c cs) d hd]
          exact Bool.false_ne_true)
      have hlt : nb.contacts.length < k := by
        simp only [List.length_cons] at hlen
        omega
      have hadd : nb.addContact k now c
          = some { nb with contacts := nb.contacts ++ [c], lastAccessed := now } := by
        simp only [KBucket.addContact, hfind, hlt, if_true]
      set nb1 : KBucket := { nb with contacts := nb.contacts ++ [c], lastAccessed := now } with hnb1
      have hsep1 : ∀ c' ∈ cs, ∀ d ∈ nb1.contacts, (d.guid == c'.guid) = false := by
        intro c' hc' d hd
        rw [hnb1] at hd
        rcases List.mem_append.mp hd with hd1 | hd1
        · exact hsep c' (List.mem_cons_of_mem c hc') d hd1
        · rw [List.mem_singleton.mp hd1]
          have : c.guid ≠ c'.guid := by
            intro he
            exact hnodup.1 (by rw [he]; exact List.mem_map_of_mem Contact.guid hc')
          exact beq_eq_false_iff_ne.mpr this
      have hlen1 : nb1.contacts.length + cs.length ≤ k := by
        show (nb.contacts ++ [c]).length + cs.length ≤ k
        simp only [List.length_append, List.length_cons, List.length_nil]
        simp only [List.length_cons] at hlen
        omega
      obtain ⟨nb2, hrun, hcts, hr1, hr2, hla⟩ :=
        splitCopy_filter cs nb1 hsep1 hnodup.2 hlen1
      refine ⟨nb2, ?_, ?_, ?_, ?_, ?_⟩
      · rw [splitCopy_cons, if_pos hk, hadd, Option.some_bind]
        exact hrun
      · rw [hcts]
        have hkey : (fun x : Contact => nb1.keyInRange x.guid) = (fun x : Contact => nb.keyInRange x.guid) := rfl
        rw [hkey, List.filter_cons_of_pos (p := fun x : Contact => nb.keyInRange x.guid) hk, hnb1]
        rw [List.append_assoc, List.singleton_append]
      · exact hr1
      · exact hr2
      · rcases hla with hla | hla
        · exact Or.inl hla
        · exact Or.inl (by rw [hla])
    · obtain ⟨nb2, hrun, hcts, hr1, hr2, hla⟩ :=
        @splitCopy_filter k now cs nb
          (fun c' hc' => hsep c' (List.mem_cons_of_mem c hc')) hnodup.2
          (by simp only [List.length_cons] at hlen; omega)
      refine ⟨nb2, ?_, ?_, hr1, hr2, hla⟩
      · rw [splitCopy_cons, if_neg hk, Option.some_bind]
        exact hrun
      · rw [hcts, List.filter_cons_of_neg (p := fun x : Contact => nb.keyInRange x.guid) (by simpa using hk)]

theorem splitRemove_skip :
    ∀ (ys : List Contact) (ob : KBucket) (c : Contact),
      (∀ y ∈ ys, (y.guid == c.guid) = false) →
      splitRemove ys { ob with contacts := c :: ob.contacts }
        = (splitRemove ys ob).map (fun ob2 => { ob2 with contacts := c :: ob2.contacts })
  | [], ob, c, _ => rfl
  | y :: ys, ob, c, hy => by
    have hyc : (c.guid == y.guid) = false :=
      beq_eq_false_iff_ne.mpr
        (Ne.symm (beq_eq_false_iff_ne.mp (hy y (List.mem_cons_self y ys))))
    rw [splitRemove_cons, splitRemove_cons]
    rcases hany : (ob.contacts.any fun d => d.guid == y.guid) with _ | _
    · have hrem1 : KBucket.removeContact { ob with contacts := c :: ob.contacts } y.guid
          = none := by
        simp only [KBucket.removeContact, List.any_cons, hyc, hany, Bool.false_or,
          Bool.false_eq_true, if_false, reduceIte]
      have hrem2 : ob.removeContact y.guid = none := by
        simp only [KBucket.removeContact, hany, Bool.false_eq_true, if_false, reduceIte]
      rw [hrem1, hrem2]
      rfl
    · have hrem1 : KBucket.removeContact { ob with contacts := c :: ob.contacts } y.guid
          = some { ob with contacts := c :: ob.contacts.eraseP (fun d => d.guid == y.guid) } := by
        simp only [KBucket.removeContact, List.any_cons, hyc, hany, Bool.false_or, if_true]
        rw [List.eraseP_cons_of_neg (by rw [hyc]; exact Bool.false_ne_true)]
      have hrem2 : ob.removeContact y.guid
          = some { ob with contacts := ob.contacts.eraseP (fun d => d.guid == y.guid) } := by
        simp only [KBucket.removeContact, hany, if_true]
      rw [hrem1, hrem2, Option.some_bind, Option.some_bind]
      exact splitRemove_skip ys { ob with contacts := ob.contacts.eraseP (fun d => d.guid == y.guid) } c
        (fun y' hy' => hy y' (List.mem_cons_of_mem y hy'))

theorem splitRemove_filter :
    ∀ (l : List Contact) (ob : KBucket) (p : Contact → Bool),
      ob.contacts = l → (l.map Contact.guid).Nodup →
      splitRemove (l.filter p) ob = some { ob with contacts := l.filter (fun c => !(p c)) }
  | [], ob, p, hcts, _ => by
    rcases ob with ⟨rmin, rmax, cts, la⟩
    simp only at hcts
    subst hcts
    rfl
  | c :: l, ob, p, hcts, hnodup => by
    rw [List.map_cons, List.nodup_cons] at hnodup
    by_cases hpc : p c = true
    · rw [List.filter_cons_of_pos hpc, List.filter_cons_of_neg (by simp [hpc])]
      rw [splitRemove_cons]
      have hrem : ob.removeContact c.guid = some { ob with contacts := l } := by
        simp only [KBucket.removeContact, hcts, List.any_cons, beq_self_eq_true,
          Bool.true_or, if_true]
        rw [List.eraseP_cons_of_pos (p := fun d : Contact => d.guid == c.guid) (beq_self_eq_true c.guid)]
      rw [hrem, Option.some_bind]
      have := splitRemove_filter l { ob with contacts := l } p rfl hnodup.2
      rw [this]
    · rw [List.filter_cons_of_neg hpc, List.filter_cons_of_pos (by simp [hpc])]
      have hy : ∀ y ∈ l.filter p, (y.guid == c.guid) = false := by
        intro y hy'
        have hmem := (List.mem_filter.mp hy').1
        refine beq_eq_false_iff_ne.mpr ?_
        intro he
        exact hnodup.1 (by rw [← he]; exact List.mem_map_of_mem Contact.guid hmem)
      have hob : ob = { { ob with contacts := l } with contacts := c :: ({ ob with contacts := l } : KBucket).contacts } := by
        rcases ob with ⟨rmin, rmax, cts, la⟩
        simp only at hcts
        subst hcts
        rfl
      rw [hob, splitRemove_skip (l.filter p) { ob with contacts := l } c hy]
      have := splitRemove_filter l { ob with contacts := l } p rfl hnodup.2
      rw [this]
      rfl

/-- C3: on a bucket satisfying the KBucket invariants (contacts in range
with present guids, no duplicate guids, at most k contacts — all reachable
states, in particular full buckets, satisfy them) whose range has even
length (every reachable range's length is a power of two), splitBucket
succeeds and splits at mid = rangeMin + (rangeMax - rangeMin)/2: the lower
bucket keeps exactly the contacts with guid < mid and the new upper bucket,
inserted right after it, receives exactly those with guid ≥ mid in their
original relative order; together they are a permutation of the old
contacts (none lost, none duplicated). -/
theorem splitBucket_characterization
    (k now : Nat) (s : TreeRoutingTable) (i : Nat) (b : KBucket)
    (hb : s.buckets.get? i = some b)
    (heven : (b.rangeMax - b.rangeMin) % 2 = 0)
    (hwf : b.rangeMin ≤ b.rangeMax)
    (hI1 : ∀ c ∈ b.contacts, ∃ g, c.guid = some g ∧ b.rangeMin ≤ g ∧ g < b.rangeMax)
    (hI2 : (b.contacts.map Contact.guid).Nodup)
    (hI3 : b.contacts.length ≤ k) :
    ∀ mid, mid = b.rangeMin + (b.rangeMax - b.rangeMin) / 2 →
      s.splitBucket k now i = some { s with buckets := (s.buckets.set i ⟨b.rangeMin, mid, b.contacts.filter (fun c => !(guidGE mid c)), b.lastAccessed⟩).insertIdx (i + 1) ⟨mid, b.rangeMax, b.contacts.filter (guidGE mid), now⟩ } ∧
      (b.contacts.filter (fun c => !(guidGE mid c))
        ++ b.contacts.filter (guidGE mid)).Perm b.contacts := by
  intro mid hmid
  have hsp : b.rangeMax - (b.rangeMax - b.rangeMin) / 2 = mid := by omega
  have hkey : ∀ c ∈ b.contacts,
      (KBucket.keyInRange ⟨mid, b.rangeMax, [], now⟩ c.guid) = guidGE mid c := by
    intro c hc
    obtain ⟨g, hg, hlo, hhi⟩ := hI1 c hc
    simp only [KBucket.keyInRange, KBucket.keyInRangeNat, guidGE, hg]
    rw [decide_eq_decide]
    constructor
    · intro hx
      exact hx.1
    · intro hx
      exact ⟨hx, hhi⟩
  obtain ⟨nb2, hcopy, hcts, hr1, hr2, hla⟩ :=
    @splitCopy_filter k now b.contacts ⟨mid, b.rangeMax, [], now⟩
      (by intro c hc d hd; cases hd) hI2 (by simpa using hI3)
  have hla2 : nb2.lastAccessed = now := by
    rcases hla with hla | hla
    · exact hla
    · exact hla
  have hcts2 : nb2.contacts = b.contacts.filter (guidGE mid) := by
    rw [hcts, List.nil_append]
    exact List.filter_congr hkey
  have hnb2 : nb2 = ⟨mid, b.rangeMax, b.contacts.filter (guidGE mid), now⟩ := by
    rcases nb2 with ⟨x1, x2, x3, x4⟩
    simp only at hcts2 hr1 hr2 hla2
    rw [hcts2, hr1, hr2, hla2]
  have hrem := splitRemove_filter b.contacts { b with rangeMax := mid } (guidGE mid)
    rfl hI2
  constructor
  · rw [TreeRoutingTable.splitBucket, splitBucketL, hb]
    dsimp only
    rw [hsp, hcopy, hnb2]
    dsimp only
    rw [← hnb2, hnb2]
    rw [hrem]
    rfl
  · exact (List.perm_append_comm).trans (List.filter_append_perm (guidGE mid) b.contacts)

/-- A two-contact full bucket (k = 2) covering [0, 8) in a table whose
parent id 5 lies inside it, for the C3 witness. -/
def c3table : TreeRoutingTable :=
  ⟨5, [⟨0, 8, [⟨some 1, 1, 0⟩, ⟨some 6, 2, 0⟩], 3⟩]⟩

/-- Closed witness for C3: splitting the full bucket [0, 8) at mid = 4
keeps guid 1 in the lower bucket and moves guid 6 to the new upper bucket,
and the two halves are a permutation of the old contacts. -/
theorem splitBucket_characterization_check :
    c3table.splitBucket 2 7 0
        = some (⟨5, [⟨0, 4, [⟨some 1, 1, 0⟩], 3⟩, ⟨4, 8, [⟨some 6, 2, 0⟩], 7⟩]⟩ : TreeRoutingTable) ∧
    List.Perm (([⟨some 1, 1, 0⟩] : List Contact) ++ ([⟨some 6, 2, 0⟩] : List Contact))
      ([⟨some 1, 1, 0⟩, ⟨some 6, 2, 0⟩] : List Contact) := by
  have h := splitBucket_characterization 2 7 c3table 0
    ⟨0, 8, [⟨some 1, 1, 0⟩, ⟨some 6, 2, 0⟩], 3⟩ rfl (by decide) (by decide)
    (by
      intro c hc
      simp only [List.mem_cons, List.not_mem_nil, or_false] at hc
      rcases hc with rfl | rfl
      · exact ⟨1, rfl, by decide, by decide⟩
      · exact ⟨6, rfl, by decide, by decide⟩)
    (by decide) (by decide) 4 rfl
  exact ⟨h.1, h.2⟩

/-! ### C9: the refresh list -/

theorem digits16_len_le {v : Nat} (hv : v < 2 ^ 160) :
    (Nat.digits 16 v).length ≤ 40 := by
  rcases Nat.eq_zero_or_pos v with rfl | hpos
  · simp
  · by_contra hgt
    push_neg at hgt
    have h1 : (16 : Nat) ^ 41 ≤ 16 ^ (Nat.digits 16 v).length :=
      Nat.pow_le_pow_right (by norm_num) hgt
    have h2 : (16 : Nat) ^ (Nat.digits 16 v).length ≤ 16 * v :=
      Nat.base_pow_length_digits_le 16 v (by norm_num) (by omega)
    have h3 : (16 : Nat) ^ 40 = 2 ^ 160 := by
      have : (16 : Nat) = 2 ^ 4 := by norm_num
      rw [this, ← pow_mul]
    have h4 : (16 : Nat) ^ 41 = 16 * 16 ^ 40 := by
      rw [pow_succ]
      ring
    omega

theorem ofDigits_replicate_zero : ∀ (n : Nat), Nat.ofDigits 16 (List.replicate n 0) = 0
  | 0 => rfl
  | n + 1 => by
    rw [List.replicate_succ, Nat.ofDigits_cons, ofDigits_replicate_zero n]

/-- The id post-processing is faithful: for any value below 2^160 it yields
exactly 40 base-16 digits whose big-endian value is the value itself. -/
theorem idHexDigits_spec {v : Nat} (hv : v < 2 ^ 160) :
    (idHexDigits v).length = 40 ∧
    Nat.ofDigits 16 (idHexDigits v).reverse = v ∧
    ∀ d ∈ idHexDigits v, d < 16 := by
  have hlen : (Nat.digits 16 v).length ≤ 40 := digits16_len_le hv
  rw [idHexDigits]
  set ds := (Nat.digits 16 v).reverse with hds
  set ds2 := if ds.length % 2 = 1 then 0 :: ds else ds with hds2
  have hds2rev : ds2.reverse = Nat.digits 16 v ∨
      ds2.reverse = Nat.digits 16 v ++ [0] := by
    rw [hds2]
    split
    · right
      rw [List.reverse_cons, hds, List.reverse_reverse]
    · left
      rw [hds, List.reverse_reverse]
  have hds2len : ds2.length ≤ 40 := by
    rw [hds2]
    split
    · rw [List.length_cons, hds, List.length_reverse]
      rw [hds, List.length_reverse] at *
      omega
    · rw [hds, List.length_reverse]
      exact hlen
  have hofds2 : Nat.ofDigits 16 ds2.reverse = v := by
    rcases hds2rev with he | he
    · rw [he, Nat.ofDigits_digits]
    · rw [he, Nat.ofDigits_append, Nat.ofDigits_digits]
      simp [Nat.ofDigits]
  refine ⟨?_, ?_, ?_⟩
  · rw [List.length_append, List.length_replicate]
    omega
  · rw [List.reverse_append, List.reverse_replicate, Nat.ofDigits_append]
    rw [hofds2, List.length_reverse, ofDigits_replicate_zero]
    ring
  · intro d hd
    rcases List.mem_append.mp hd with hd1 | hd1
    · rw [List.eq_of_mem_replicate hd1]
      norm_num
    · have hd2 : d ∈ ds2.reverse := List.mem_reverse.mpr hd1
      have hmem : d ∈ Nat.digits 16 v ∨ d = 0 := by
        rcases hds2rev with he | he
        · rw [he] at hd2
          exact Or.inl hd2
        · rw [he, List.mem_append] at hd2
          rcases hd2 with hd2 | hd2
          · exact Or.inl hd2
          · exact Or.inr (List.mem_singleton.mp hd2)
      rcases hmem with hmem | rfl
      · exact Nat.digits_lt_base (by norm_num) hmem
      · norm_num

theorem refreshFold (refreshTimeout now : Nat) (oracle : Nat → Nat → Nat) (force : Bool) :
    ∀ (bs : List KBucket) (acc : List (List Nat)),
      (∀ b ∈ bs, b.rangeMin < b.rangeMax) →
      bs.foldl (fun acc b =>
        acc.bind (fun ids =>
          if staleOrForced refreshTimeout now force b then
            if b.rangeMin < b.rangeMax then
              some (ids ++ [idHexDigits (oracle b.rangeMin b.rangeMax)])
            else none
          else some ids)) (some acc)
        = some (acc ++ (bs.filter (staleOrForced refreshTimeout now force)).map
            (fun b => idHexDigits (oracle b.rangeMin b.rangeMax)))
  | [], acc, _ => by simp
  | b :: bs, acc, hr => by
    rw [List.foldl_cons, Option.some_bind]
    by_cases hst : staleOrForced refreshTimeout now force b = true
    · rw [if_pos hst, if_pos (hr b (List.mem_cons_self b bs))]
      rw [refreshFold refreshTimeout now oracle force bs _
        (fun b' hb' => hr b' (List.mem_cons_of_mem b hb'))]
      rw [List.filter_cons_of_pos hst, List.map_cons, List.append_assoc,
        List.singleton_append]
    · rw [if_neg hst]
      rw [refreshFold refreshTimeout now oracle force bs acc
        (fun b' hb' => hr b' (List.mem_cons_of_mem b hb'))]
      rw [List.filter_cons_of_neg (by simpa using hst)]

/-- C9: getRefreshList emits, in bucket order, one id for exactly the
buckets from startIndex on that are stale (now - lastAccessed ≥
refreshTimeout) or, under force, for all of them; each id is 40 = B/4
base-16 digits whose value is the oracle's draw, and so decodes back to an
integer inside the source bucket's [rangeMin, rangeMax). -/
theorem getRefreshList_spec (refreshTimeout now : Nat) (oracle : Nat → Nat → Nat)
    (s : TreeRoutingTable) (startIndex : Nat) (force : Bool)
    (horacle : ∀ lo hi, lo < hi → lo ≤ oracle lo hi ∧ oracle lo hi < hi)
    (hbuckets : ∀ b ∈ s.buckets, b.rangeMin < b.rangeMax ∧ b.rangeMax ≤ 2 ^ 160) :
    s.getRefreshList refreshTimeout now oracle startIndex force
      = some (((s.buckets.drop startIndex).filter
          (staleOrForced refreshTimeout now force)).map
            (fun b => idHexDigits (oracle b.rangeMin b.rangeMax))) ∧
    ∀ b ∈ (s.buckets.drop startIndex).filter (staleOrForced refreshTimeout now force),
      (idHexDigits (oracle b.rangeMin b.rangeMax)).length = 40 ∧
      (∀ d ∈ idHexDigits (oracle b.rangeMin b.rangeMax), d < 16) ∧
      b.rangeMin ≤ Nat.ofDigits 16 (idHexDigits (oracle b.rangeMin b.rangeMax)).reverse ∧
      Nat.ofDigits 16 (idHexDigits (oracle b.rangeMin b.rangeMax)).reverse < b.rangeMax := by
  constructor
  · rw [TreeRoutingTable.getRefreshList]
    rw [refreshFold refreshTimeout now oracle force (s.buckets.drop startIndex) []
      (fun b hb => (hbuckets b (List.drop_subset startIndex s.buckets hb)).1)]
    rw [List.nil_append]
  · intro b hb
    have hmem : b ∈ s.buckets :=
      List.drop_subset startIndex s.buckets (List.mem_filter.mp hb).1
    obtain ⟨hlt, hle⟩ := hbuckets b hmem
    obtain ⟨hor1, hor2⟩ := horacle b.rangeMin b.rangeMax hlt
    have hv : oracle b.rangeMin b.rangeMax < 2 ^ 160 := by omega
    obtain ⟨hlen, hof, hdig⟩ := idHexDigits_spec hv
    exact ⟨hlen, hdig, by rw [hof]; exact hor1, by rw [hof]; omega⟩

theorem getRefreshList_spec_check :
    (⟨0, [⟨0, 16, [], 10000⟩, ⟨16, 32, [], 2800⟩, ⟨32, 2 ^ 160, [], 10000⟩]⟩ : TreeRoutingTable).getRefreshList 3600 10000 (fun lo _ => lo) 0 false
      = some [idHexDigits 16] ∧
    (idHexDigits 16).length = 40 ∧
    16 ≤ Nat.ofDigits 16 (idHexDigits 16).reverse ∧
    Nat.ofDigits 16 (idHexDigits 16).reverse < 32 := by
  have h := getRefreshList_spec 3600 10000 (fun lo _ => lo)
    (⟨0, [⟨0, 16, [], 10000⟩, ⟨16, 32, [], 2800⟩, ⟨32, 2 ^ 160, [], 10000⟩]⟩ : TreeRoutingTable) 0 false
    (fun lo hi hlt => ⟨Nat.le_refl lo, hlt⟩)
    (by intro b hb; fin_cases hb <;> exact ⟨by norm_num, by norm_num⟩)
  have hb1 : (⟨16, 32, [], 2800⟩ : KBucket) ∈
      (([⟨0, 16, [], 10000⟩, ⟨16, 32, [], 2800⟩, ⟨32, 2 ^ 160, [], 10000⟩] : List KBucket).drop 0).filter
        (staleOrForced 3600 10000 false) := by decide
  have h2 := h.2 (⟨16, 32, [], 2800⟩ : KBucket) hb1
  exact ⟨h.1, h2.1, h2.2.2.1, h2.2.2.2⟩

/-- The contacts of a bucket that survive the exclude filter of
get_contacts: what findCloseNodes can draw from that bucket. -/
def filtered (ex : Option Nat) (b : KBucket) : List Contact :=
  b.contacts.filter (fun c => !(KBucket.excludedBy ex c))

/-- All contacts the table stores other than the excluded id, in bucket
order. -/
def allFiltered (bs : List KBucket) (ex : Option Nat) : List Contact :=
  (bs.map (filtered ex)).flatten

/-- The same restricted to the bucket-index window [lo, hi). -/
def windowFiltered (bs : List KBucket) (ex : Option Nat) (lo hi : Nat) : List Contact :=
  (((bs.take hi).drop lo).map (filtered ex)).flatten

/-- The number of contacts the table stores other than the excluded id. -/
def availTotal (bs : List KBucket) (ex : Option Nat) : Nat :=
  (allFiltered bs ex).length

/-- The number of such contacts in the window [lo, hi). -/
def availRange (bs : List KBucket) (ex : Option Nat) (lo hi : Nat) : Nat :=
  (windowFiltered bs ex lo hi).length

theorem filtered_length (ex : Option Nat) (b : KBucket) :
    (filtered ex b).length = b.numAvail ex := rfl

theorem getD_of_lt {bs : List KBucket} {i : Nat} (h : i < bs.length) :
    bs.getD i default = bs[i] := by
  rw [List.getD_eq_getElem?_getD, List.getElem?_eq_getElem h]
  rfl

theorem wf_extend_hi (bs : List KBucket) (ex : Option Nat) (lo hi : Nat)
    (h1 : hi < bs.length) (h2 : lo ≤ hi) :
    windowFiltered bs ex lo (hi + 1)
      = windowFiltered bs ex lo hi ++ filtered ex (bs.getD hi default) := by
  rw [windowFiltered, windowFiltered, List.take_succ, List.getElem?_eq_getElem h1,
    getD_of_lt h1]
  rw [List.drop_append_eq_append_drop]
  have hl : lo - (bs.take hi).length = 0 := by
    rw [List.length_take]; omega
  rw [hl]
  simp [Option.toList]

theorem wf_extend_lo (bs : List KBucket) (ex : Option Nat) (lo hi : Nat)
    (h1 : lo < bs.length) (h2 : lo < hi) :
    windowFiltered bs ex lo hi
      = filtered ex (bs.getD lo default) ++ windowFiltered bs ex (lo + 1) hi := by
  rw [windowFiltered, windowFiltered]
  have hlt : lo < (bs.take hi).length := by
    rw [List.length_take]; omega
  rw [List.drop_eq_getElem_cons hlt, List.map_cons, List.flatten_cons, getD_of_lt h1]
  congr 2
  exact List.getElem_take _

theorem wf_collapse (bs : List KBucket) (ex : Option Nat) (lo hi : Nat)
    (h : bs.length ≤ hi) :
    windowFiltered bs ex lo (hi + 1) = windowFiltered bs ex lo hi := by
  rw [windowFiltered, windowFiltered, List.take_of_length_le h,
    List.take_of_length_le (by omega)]

theorem wf_total (bs : List KBucket) (ex : Option Nat) (hi : Nat)
    (h : bs.length ≤ hi) :
    windowFiltered bs ex 0 hi = allFiltered bs ex := by
  rw [windowFiltered, allFiltered, List.take_of_length_le h, List.drop_zero]

theorem wf_empty (bs : List KBucket) (ex : Option Nat) (lo : Nat) :
    windowFiltered bs ex lo lo = [] := by
  rw [windowFiltered]
  have h : (bs.take lo).drop lo = [] :=
    List.drop_eq_nil_of_le (by rw [List.length_take]; omega)
  rw [h]
  rfl

theorem availRange_extend_hi (bs : List KBucket) (ex : Option Nat) (lo hi : Nat)
    (h1 : hi < bs.length) (h2 : lo ≤ hi) :
    availRange bs ex lo (hi + 1)
      = availRange bs ex lo hi + (bs.getD hi default).numAvail ex := by
  rw [availRange, availRange, wf_extend_hi bs ex lo hi h1 h2, List.length_append,
    filtered_length]

theorem availRange_extend_lo (bs : List KBucket) (ex : Option Nat) (lo hi : Nat)
    (h1 : lo < bs.length) (h2 : lo < hi) :
    availRange bs ex lo hi
      = (bs.getD lo default).numAvail ex + availRange bs ex (lo + 1) hi := by
  rw [availRange, availRange, wf_extend_lo bs ex lo hi h1 h2, List.length_append,
    filtered_length]

theorem availRange_collapse (bs : List KBucket) (ex : Option Nat) (lo hi : Nat)
    (h : bs.length ≤ hi) :
    availRange bs ex lo (hi + 1) = availRange bs ex lo hi := by
  rw [availRange, availRange, wf_collapse bs ex lo hi h]

theorem availRange_total (bs : List KBucket) (ex : Option Nat) (hi : Nat)
    (h : bs.length ≤ hi) :
    availRange bs ex 0 hi = availTotal bs ex := by
  rw [availRange, availTotal, wf_total bs ex hi h]

theorem availRange_le_total (bs : List KBucket) (ex : Option Nat) (lo hi : Nat) :
    availRange bs ex lo hi ≤ availTotal bs ex := by
  rw [availRange, availTotal, allFiltered, windowFiltered]
  conv_rhs => rw [← List.take_append_drop hi bs]
  rw [List.map_append, List.flatten_append, List.length_append]
  conv_rhs => rw [← List.take_append_drop lo (bs.take hi)]
  rw [List.map_append, List.flatten_append, List.length_append]
  omega

theorem getContacts_length (b : KBucket) (n : Nat) (ex : Option Nat) :
    (b.getContacts n ex).length = min n (b.numAvail ex) := by
  simp only [KBucket.getContacts, KBucket.numAvail, List.length_take]

theorem getContacts_append_length (k : Nat) (acc : List Contact) (b : KBucket)
    (ex : Option Nat) (h : acc.length ≤ k) :
    (acc ++ b.getContacts (k - acc.length) ex).length
      = min k (acc.length + b.numAvail ex) := by
  simp only [KBucket.getContacts, KBucket.numAvail, List.length_append, List.length_take]
  omega

theorem getContacts_full (b : KBucket) (n : Nat) (ex : Option Nat)
    (h : b.numAvail ex ≤ n) : b.getContacts n ex = filtered ex b := by
  simp only [KBucket.getContacts, filtered]
  exact List.take_of_length_le h

theorem fcnStep_length (k : Nat) (acc : List Contact) (b1 b2 : KBucket)
    (ex : Option Nat) (h : acc.length ≤ k) :
    (acc ++ b1.getContacts (k - acc.length) ex ++
      b2.getContacts (k - (acc ++ b1.getContacts (k - acc.length) ex).length) ex).length
      = min k (acc.length + b1.numAvail ex + b2.numAvail ex) := by
  have e1 := getContacts_append_length k acc b1 ex h
  have e2 := getContacts_append_length k (acc ++ b1.getContacts (k - acc.length) ex)
    b2 ex (by omega)
  omega

theorem perm_sandwich {α : Type} {acc W : List α} (F1 F2 : List α)
    (hp : acc.Perm W) : (acc ++ F1 ++ F2).Perm (F1 ++ W ++ F2) :=
  (List.perm_append_comm.trans (hp.append_left F1)).append_right F2

theorem fcnLoop_spec (k : Nat) (bs : List KBucket) (bIdx : Nat) (ex : Option Nat)
    (hb : bIdx < bs.length) :
    ∀ (gas i : Nat) (cgl cgh : Bool) (acc : List Contact),
      1 ≤ i →
      cgl = decide (i ≤ bIdx) →
      cgh = decide (bIdx + i < bs.length) →
      bs.length + 1 ≤ gas + i →
      acc.length = min k (availRange bs ex (bIdx + 1 - i) (bIdx + i)) →
      (acc.length < k → acc.Perm (windowFiltered bs ex (bIdx + 1 - i) (bIdx + i))) →
      (fcnLoop k bs bIdx ex gas i cgl cgh acc).length = min k (availTotal bs ex) ∧
        (availTotal bs ex < k →
          (fcnLoop k bs bIdx ex gas i cgl cgh acc).Perm (allFiltered bs ex)) := by
  intro gas
  induction gas with
  | zero =>
    intro i cgl cgh acc hi1 hcgl hcgh hgas hlen hperm
    have h0 : bIdx + 1 - i = 0 := by omega
    have h1 : bs.length ≤ bIdx + i := by omega
    rw [h0, availRange_total bs ex (bIdx + i) h1] at hlen
    rw [h0, wf_total bs ex (bIdx + i) h1] at hperm
    simp only [fcnLoop]
    exact ⟨hlen, fun hlt => hperm (by omega)⟩
  | succ gas ih =>
    intro i cgl cgh acc hi1 hcgl hcgh hgas hlen hperm
    subst hcgl
    subst hcgh
    by_cases hklt : acc.length < k
    case neg =>
      have hW := availRange_le_total bs ex (bIdx + 1 - i) (bIdx + i)
      simp only [fcnLoop]
      rw [if_neg (fun h => hklt h.1)]
      exact ⟨by omega, fun hlt => absurd hlt (by omega)⟩
    case pos =>
      by_cases hlow : i ≤ bIdx <;> by_cases hhigh : bIdx + i < bs.length
      · -- both directions open
        simp only [fcnLoop]
        have hc : acc.length < k ∧
            (decide (i ≤ bIdx) = true ∨ decide (bIdx + i < bs.length) = true) :=
          ⟨hklt, Or.inl (decide_eq_true hlow)⟩
        rw [if_pos hc]
        simp only [if_pos (decide_eq_true hlow), if_pos (decide_eq_true hhigh)]
        refine ih (i + 1) _ _ _ (by omega) rfl rfl (by omega) ?_ ?_
        · have e0 : bIdx + 1 - (i + 1) = bIdx - i := by omega
          have e6 : bIdx + (i + 1) = bIdx + i + 1 := by omega
          rw [e0, e6]
          have e1 := fcnStep_length k acc (bs.getD (bIdx - i) default)
            (bs.getD (bIdx + i) default) ex (by omega)
          have e3 := availRange_extend_lo bs ex (bIdx - i) (bIdx + i) (by omega) (by omega)
          have e4 : bIdx - i + 1 = bIdx + 1 - i := by omega
          rw [e4] at e3
          have e5 := availRange_extend_hi bs ex (bIdx - i) (bIdx + i) hhigh (by omega)
          omega
        · intro h3
          have e0 : bIdx + 1 - (i + 1) = bIdx - i := by omega
          have e6 : bIdx + (i + 1) = bIdx + i + 1 := by omega
          rw [e0, e6]
          have e1 := fcnStep_length k acc (bs.getD (bIdx - i) default)
            (bs.getD (bIdx + i) default) ex (by omega)
          have hsum : acc.length + (bs.getD (bIdx - i) default).numAvail ex
              + (bs.getD (bIdx + i) default).numAvail ex < k := by omega
          have hf1 : (bs.getD (bIdx - i) default).getContacts (k - acc.length) ex
              = filtered ex (bs.getD (bIdx - i) default) :=
            getContacts_full _ _ _ (by omega)
          have hg1 : (acc ++ (bs.getD (bIdx - i) default).getContacts
              (k - acc.length) ex).length
              = acc.length + (bs.getD (bIdx - i) default).numAvail ex := by
            rw [hf1, List.length_append, filtered_length]
          have hf2 : (bs.getD (bIdx + i) default).getContacts
              (k - (acc ++ (bs.getD (bIdx - i) default).getContacts
                (k - acc.length) ex).length) ex
              = filtered ex (bs.getD (bIdx + i) default) :=
            getContacts_full _ _ _ (by omega)
          rw [hf2, hf1]
          rw [wf_extend_hi bs ex (bIdx - i) (bIdx + i) hhigh (by omega),
            wf_extend_lo bs ex (bIdx - i) (bIdx + i) (by omega) (by omega)]
          have e4 : bIdx - i + 1 = bIdx + 1 - i := by omega
          rw [e4]
          exact perm_sandwich _ _ (hperm hklt)
      · -- only the lower direction open
        rw [decide_eq_false hhigh]
        simp only [fcnLoop]
        have hc : acc.length < k ∧ (decide (i ≤ bIdx) = true ∨ false = true) :=
          ⟨hklt, Or.inl (decide_eq_true hlow)⟩
        rw [if_pos hc]
        simp only [if_pos (decide_eq_true hlow), if_neg Bool.false_ne_true]
        refine ih (i + 1) _ _ _ (by omega) rfl (decide_eq_false (by omega)).symm
          (by omega) ?_ ?_
        · have e0 : bIdx + 1 - (i + 1) = bIdx - i := by omega
          have e6 : bIdx + (i + 1) = bIdx + i + 1 := by omega
          rw [e0, e6]
          have e1 := getContacts_append_length k acc (bs.getD (bIdx - i) default) ex
            (by omega)
          have e3 := availRange_extend_lo bs ex (bIdx - i) (bIdx + i) (by omega) (by omega)
          have e4 : bIdx - i + 1 = bIdx + 1 - i := by omega
          rw [e4] at e3
          have e5 := availRange_collapse bs ex (bIdx - i) (bIdx + i) (by omega)
          omega
        · intro h3
          have e0 : bIdx + 1 - (i + 1) = bIdx - i := by omega
          have e6 : bIdx + (i + 1) = bIdx + i + 1 := by omega
          rw [e0, e6]
          have e1 := getContacts_append_length k acc (bs.getD (bIdx - i) default) ex
            (by omega)
          have hf1 : (bs.getD (bIdx - i) default).getContacts (k - acc.length) ex
              = filtered ex (bs.getD (bIdx - i) default) :=
            getContacts_full _ _ _ (by omega)
          rw [hf1]
          rw [wf_collapse bs ex (bIdx - i) (bIdx + i) (by omega),
            wf_extend_lo bs ex (bIdx - i) (bIdx + i) (by omega) (by omega)]
          have e4 : bIdx - i + 1 = bIdx + 1 - i := by omega
          rw [e4]
          exact List.perm_append_comm.trans ((hperm hklt).append_left _)
      · -- only the higher direction open
        rw [decide_eq_false hlow]
        simp only [fcnLoop]
        have hc : acc.length < k ∧ (false = true ∨ decide (bIdx + i < bs.length) = true) :=
          ⟨hklt, Or.inr (decide_eq_true hhigh)⟩
        rw [if_pos hc]
        simp only [if_neg Bool.false_ne_true, if_pos (decide_eq_true hhigh)]
        refine ih (i + 1) _ _ _ (by omega) (decide_eq_false (by omega)).symm rfl
          (by omega) ?_ ?_
        · have e0 : bIdx + 1 - (i + 1) = bIdx + 1 - i := by omega
          have e6 : bIdx + (i + 1) = bIdx + i + 1 := by omega
          rw [e0, e6]
          have e1 := getContacts_append_length k acc (bs.getD (bIdx + i) default) ex
            (by omega)
          have e5 := availRange_extend_hi bs ex (bIdx + 1 - i) (bIdx + i) hhigh (by omega)
          omega
        · intro h3
          have e0 : bIdx + 1 - (i + 1) = bIdx + 1 - i := by omega
          have e6 : bIdx + (i + 1) = bIdx + i + 1 := by omega
          rw [e0, e6]
          have e1 := getContacts_append_length k acc (bs.getD (bIdx + i) default) ex
            (by omega)
          have hf2 : (bs.getD (bIdx + i) default).getContacts (k - acc.length) ex
              = filtered ex (bs.getD (bIdx + i) default) :=
            getContacts_full _ _ _ (by omega)
          rw [hf2]
          rw [wf_extend_hi bs ex (bIdx + 1 - i) (bIdx + i) hhigh (by omega)]
          exact (hperm hklt).append_right _
      · -- both directions exhausted: the whole table has been visited
        simp only [fcnLoop]
        rw [if_neg (fun h => h.2.elim
          (fun h2 => hlow (of_decide_eq_true h2))
          (fun h2 => hhigh (of_decide_eq_true h2)))]
        have h0 : bIdx + 1 - i = 0 := by omega
        have h1 : bs.length ≤ bIdx + i := by omega
        rw [h0, availRange_total bs ex (bIdx + i) h1] at hlen
        rw [h0, wf_total bs ex (bIdx + i) h1] at hperm
        exact ⟨hlen, fun hlt => hperm (by omega)⟩

theorem availRange_empty (bs : List KBucket) (ex : Option Nat) (lo : Nat) :
    availRange bs ex lo lo = 0 := by
  rw [availRange, wf_empty]
  rfl

/-- C1: findCloseNodes(key, count, nodeID) returns at most k contacts,
returns exactly k whenever the table stores at least k contacts other than
the excluded id, and when it stores fewer returns all of them (a
permutation of every stored non-excluded contact); the count parameter
plays no role.  This is the intended behaviour: the source body reads the
undefined name node_id where the parameter is nodeID, so every actual call
raises NameError (spec §9); the embedding resolves the name to the nodeID
parameter. -/
theorem findCloseNodes_count (k count : Nat) (s : TreeRoutingTable)
    (key ex : Option Nat) (r : List Contact)
    (h : s.findCloseNodes k key count ex = some r) :
    r.length ≤ k ∧
    (k ≤ availTotal s.buckets ex → r.length = k) ∧
    (availTotal s.buckets ex < k → r.Perm (allFiltered s.buckets ex)) := by
  simp only [TreeRoutingTable.findCloseNodes] at h
  rcases hidx : kbucketIndexL s.buckets key with _ | bIdx
  · rw [hidx] at h
    exact absurd h (by simp)
  · rw [hidx] at h
    dsimp only at h
    simp only [Option.some.injEq] at h
    have hb : bIdx < s.buckets.length := (kbucketIndexL_some_mem hidx).1
    have hmain := fcnLoop_spec k s.buckets bIdx ex hb (s.buckets.length + 1) 1
      (decide (1 ≤ bIdx)) (decide (bIdx + 1 < s.buckets.length))
      ((s.buckets.getD bIdx default).getContacts k ex)
      (Nat.le_refl 1) rfl rfl (by omega) ?hlen ?hperm
    case hlen =>
      rw [getContacts_length, Nat.add_sub_cancel,
        availRange_extend_hi s.buckets ex bIdx bIdx hb (Nat.le_refl bIdx),
        availRange_empty s.buckets ex bIdx]
      omega
    case hperm =>
      intro hlt
      have hgl := getContacts_length (s.buckets.getD bIdx default) k ex
      rw [Nat.add_sub_cancel,
        wf_extend_hi s.buckets ex bIdx bIdx hb (Nat.le_refl bIdx),
        wf_empty, List.nil_append,
        getContacts_full (s.buckets.getD bIdx default) k ex (by omega)]
    rw [h] at hmain
    obtain ⟨h1, h2⟩ := hmain
    exact ⟨by omega, fun hge => by omega, h2⟩

theorem findCloseNodes_count_check :
    (⟨0, [⟨0, 4, [⟨some 1, 0, 0⟩, ⟨some 2, 0, 0⟩, ⟨some 3, 0, 0⟩], 0⟩]⟩ :
        TreeRoutingTable).findCloseNodes 2 (some 1) 7 none
      = some [⟨some 1, 0, 0⟩, ⟨some 2, 0, 0⟩] ∧
    ([⟨some 1, 0, 0⟩, ⟨some 2, 0, 0⟩] : List Contact).length = 2 := by
  have h : (⟨0, [⟨0, 4, [⟨some 1, 0, 0⟩, ⟨some 2, 0, 0⟩, ⟨some 3, 0, 0⟩], 0⟩]⟩ :
        TreeRoutingTable).findCloseNodes 2 (some 1) 7 none
      = some [⟨some 1, 0, 0⟩, ⟨some 2, 0, 0⟩] := by decide
  refine ⟨h, ?_⟩
  exact (findCloseNodes_count 2 7
    (⟨0, [⟨0, 4, [⟨some 1, 0, 0⟩, ⟨some 2, 0, 0⟩, ⟨some 3, 0, 0⟩], 0⟩]⟩ :
      TreeRoutingTable) (some 1) none
    [⟨some 1, 0, 0⟩, ⟨some 2, 0, 0⟩] h).2.1 (by decide)

theorem getD_insertIdx : ∀ (n : Nat) (l : List KBucket) (x : KBucket) (j : Nat),
    n ≤ l.length →
    (l.insertIdx n x).getD j default
      = if j < n then l.getD j default else if j = n then x else l.getD (j - 1) default
  | 0, l, x, j, _ => by
    rw [List.insertIdx_zero]
    rcases j with _ | j'
    · rw [List.getD_cons_zero, if_neg (by omega), if_pos rfl]
    · rw [List.getD_cons_succ, if_neg (by omega), if_neg (by omega)]
      simp only [Nat.add_sub_cancel]
  | n + 1, [], x, j, h => absurd h (by simp)
  | n + 1, a :: l, x, j, h => by
    rw [List.insertIdx_succ_cons]
    rcases j with _ | j'
    · rw [List.getD_cons_zero, if_pos (by omega), List.getD_cons_zero]
    · rw [List.getD_cons_succ,
        getD_insertIdx n l x j' (by simpa using h)]
      by_cases h1 : j' < n
      · rw [if_pos h1, if_pos (by omega), List.getD_cons_succ]
      · rw [if_neg h1]
        by_cases h2 : j' = n
        · rw [if_pos h2, if_neg (by omega), if_pos (by omega)]
        · rw [if_neg h2, if_neg (by omega), if_neg (by omega)]
          rcases j' with _ | j''
          · omega
          · simp only [Nat.add_sub_cancel]
            rw [List.getD_cons_succ]

theorem filter_eq_singleton {p : Nat → Bool} {j : Nat} :
    ∀ {l : List Nat}, j ∈ l → l.Nodup → p j = true →
      (∀ x ∈ l, p x = true → x = j) → l.filter p = [j]
  | [], hmem, _, _, _ => absurd hmem (by simp)
  | a :: l, hmem, hnd, hp, huniq => by
    rw [List.nodup_cons] at hnd
    by_cases ha : a = j
    · subst ha
      rw [List.filter_cons_of_pos hp]
      have hnil : l.filter p = [] := by
        rw [List.filter_eq_nil_iff]
        intro x hx hpx
        exact absurd (huniq x (List.mem_cons_of_mem a hx) hpx ▸ hx) hnd.1
      rw [hnil]
    · have hmem2 : j ∈ l := by
        rcases List.mem_cons.mp hmem with he | hm
        · exact absurd he.symm ha
        · exact hm
      have hpa : ¬(p a = true) := fun hpa =>
        ha (huniq a (List.mem_cons_self a l) hpa)
      rw [List.filter_cons_of_neg hpa]
      exact filter_eq_singleton hmem2 hnd.2 hp
        (fun x hx hpx => huniq x (List.mem_cons_of_mem a hx) hpx)

theorem kbucketIndexL_eq_some_of_unique {bs : List KBucket} {g : Option Nat} {j : Nat}
    (hj : j < bs.length) (hcov : (bs.getD j default).keyInRange g = true)
    (huniq : ∀ j', j' < bs.length → (bs.getD j' default).keyInRange g = true → j' = j) :
    kbucketIndexL bs g = some j := by
  rw [kbucketIndexL_some_iff]
  unfold coveringIdx
  exact filter_eq_singleton (List.mem_range.mpr hj) (List.nodup_range bs.length) hcov
    (fun x hx hpx => huniq x (List.mem_range.mp hx) hpx)

theorem find?_append_none {p : Contact → Bool} :
    ∀ {l1 : List Contact} (l2 : List Contact), l1.find? p = none →
      (l1 ++ l2).find? p = l2.find? p
  | [], l2, _ => rfl
  | a :: l1, l2, h => by
    by_cases hpa : p a = true
    · rw [List.find?_cons_of_pos l1 hpa] at h
      cases h
    · rw [List.find?_cons_of_neg l1 hpa] at h
      rw [List.cons_append, List.find?_cons_of_neg (l1 ++ l2) hpa]
      exact find?_append_none l2 h

theorem find?_eraseP_none {g : Option Nat} :
    ∀ {l : List Contact}, ((l.map (fun d => d.guid)).Nodup) →
      (l.eraseP (fun d => d.guid == g)).find? (fun d => d.guid == g) = none
  | [], _ => rfl
  | a :: l, hnd => by
    rw [List.map_cons, List.nodup_cons] at hnd
    by_cases hpa : (a.guid == g) = true
    · rw [List.eraseP_cons_of_pos (p := fun d : Contact => d.guid == g) hpa]
      rw [List.find?_eq_none]
      intro d hd hpd
      refine hnd.1 ?_
      have : d.guid = a.guid := (eq_of_beq hpd).trans (eq_of_beq hpa).symm
      rw [← this]
      exact List.mem_map_of_mem (fun d => d.guid) hd
    · rw [List.eraseP_cons_of_neg (p := fun d : Contact => d.guid == g) hpa,
        List.find?_cons_of_neg (p := fun d : Contact => d.guid == g) _ hpa]
      exact find?_eraseP_none hnd.2

theorem rcGet_rcSet : ∀ (cache : List (Nat × List Contact)) (i : Nat) (l : List Contact),
    rcGet (rcSet cache i l) i = l
  | [], i, l => by
    simp [rcGet, rcSet,
      List.find?_cons_of_pos (p := fun q : Nat × List Contact => q.1 == i)
        (a := (i, l)) _ (beq_self_eq_true i)]
  | p :: ps, i, l => by
    rw [rcSet]
    by_cases hp : (p.1 == i) = true
    · rw [if_pos hp, rcGet,
        List.find?_cons_of_pos (p := fun q : Nat × List Contact => q.1 == i)
          (a := (i, l)) _ (beq_self_eq_true i)]
      rfl
    · rw [if_neg hp, rcGet,
        List.find?_cons_of_neg (p := fun q : Nat × List Contact => q.1 == i) _ hp,
        ← rcGet]
      exact rcGet_rcSet ps i l

theorem cacheInsert_tail {k : Nat} {cache rc : List (Nat × List Contact)} {i : Nat}
    {c : Contact} (h : cacheInsert k cache i c = some rc) :
    ∃ l, rcGet rc i = l ++ [c] := by
  simp only [cacheInsert] at h
  rcases hs : (if (rcGet (if rcMem cache i then cache else rcSet cache i []) i).any
        (fun d => d.guid == c.guid) then
      some (rcSet (if rcMem cache i then cache else rcSet cache i []) i
        ((rcGet (if rcMem cache i then cache else rcSet cache i []) i).eraseP
          (fun d => d.guid == c.guid)))
    else if k ≤ (if rcMem cache i then cache else rcSet cache i []).length then
      if rcMem (if rcMem cache i then cache else rcSet cache i []) 0 then
        some (rcErase (if rcMem cache i then cache else rcSet cache i []) 0)
      else none
    else some (if rcMem cache i then cache else rcSet cache i []))
    with _ | cache2
  · rw [hs] at h
    cases h
  · rw [hs, Option.some_bind] at h
    by_cases hmem : rcMem cache2 i = true
    · rw [if_pos hmem] at h
      refine ⟨rcGet cache2 i, ?_⟩
      rw [← Option.some.inj h]
      exact rcGet_rcSet cache2 i (rcGet cache2 i ++ [c])
    · rw [if_neg hmem] at h
      cases h

/-- The address the optimized table currently associates with an id: the
address of the entry with that guid in the covering bucket or, failing
that, of the most recently cached contact with that guid for that bucket
index. -/
def assocAddress (s : OptimizedTreeRoutingTable) (g : Option Nat) : Option Nat :=
  match kbucketIndexL s.buckets g with
  | none => none
  | some i =>
    match (s.buckets.getD i default).getContact g with
    | some d => some d.address
    | none => ((rcGet s.replacement_cache i).reverse.find?
        (fun d => d.guid == g)).map (fun d => d.address)

theorem assoc_bucket_case {k now : Nat} {s : OptimizedTreeRoutingTable} {i : Nat}
    {b2 : KBucket} {c : Contact} {g : Nat}
    (hg : c.guid = some g)
    (hidx : kbucketIndexL s.buckets (some g) = some i)
    (hnone : (s.buckets.getD i default).getContact (some g) = none)
    (hadd : (s.buckets.getD i default).addContact k now c = some b2) :
    assocAddress { s with buckets := s.buckets.set i b2 } (some g) = some c.address := by
  have hilt : i < s.buckets.length := (kbucketIndexL_some_mem hidx).1
  simp only [KBucket.getContact] at hnone
  rw [KBucket.addContact, hg, hnone] at hadd
  dsimp only at hadd
  by_cases hlk : (s.buckets.getD i default).contacts.length < k
  · rw [if_pos hlk] at hadd
    have hb2 := (Option.some.inj hadd).symm
    have hidx2 : kbucketIndexL (s.buckets.set i b2) (some g) = some i := by
      rw [kbucketIndexL_set_ranges hilt (by rw [hb2]) (by rw [hb2]) (some g)]
      exact hidx
    simp only [assocAddress]
    rw [hidx2]
    dsimp only
    rw [getD_set_self hilt]
    have hgc : b2.getContact (some g) = some c := by
      rw [hb2]
      simp only [KBucket.getContact]
      rw [find?_append_none _ hnone]
      exact List.find?_cons_of_pos _ (by rw [hg]; exact beq_self_eq_true _)
    rw [hgc]
  · rw [if_neg hlk] at hadd
    cases hadd

theorem assoc_cache_case {k : Nat} {s : OptimizedTreeRoutingTable} {i : Nat}
    {rc : List (Nat × List Contact)} {c : Contact} {g : Nat}
    (hg : c.guid = some g)
    (hidx : kbucketIndexL s.buckets (some g) = some i)
    (hnone : (s.buckets.getD i default).getContact (some g) = none)
    (hci : cacheInsert k s.replacement_cache i c = some rc) :
    assocAddress { s with replacement_cache := rc } (some g) = some c.address := by
  obtain ⟨l, hl⟩ := cacheInsert_tail hci
  simp only [assocAddress]
  rw [hidx]
  dsimp only
  rw [hnone]
  dsimp only
  rw [hl, List.reverse_append, List.reverse_singleton, List.singleton_append]
  rw [List.find?_cons_of_pos _ (by rw [hg]; exact beq_self_eq_true _)]
  rfl

theorem split_premises {k now : Nat} {bs : List KBucket} {g : Nat} {i : Nat}
    {bs2 : List KBucket}
    (hidx : kbucketIndexL bs (some g) = some i)
    (hnone : (bs.getD i default).getContact (some g) = none)
    (hsplit : splitBucketL k now bs i = some bs2) :
    ∃ j, kbucketIndexL bs2 (some g) = some j ∧
      (bs2.getD j default).getContact (some g) = none := by
  obtain ⟨oldB, oldB2, newB, hget, hbs2, hr1, hr2, hr3, hr4, hcopy, hrem⟩ :=
    splitBucketL_shape hsplit
  have hilt : i < bs.length := get?_some_lt hget
  have hD : bs.getD i default = oldB := get?_some_getD hget
  have hcov := (kbucketIndexL_some_mem hidx).2
  rw [hD] at hcov hnone
  simp only [KBucket.keyInRange, KBucket.keyInRangeNat, decide_eq_true_eq] at hcov
  simp only [KBucket.getContact] at hnone
  have hnog : ∀ d ∈ oldB.contacts, d.guid ≠ some g := by
    intro d hd he
    exact (List.find?_eq_none.mp hnone d hd) (by rw [he]; exact beq_self_eq_true _)
  have hnew : ∀ d ∈ newB.contacts, d.guid ≠ some g :=
    splitCopy_all hcopy (fun d hd => absurd hd (List.not_mem_nil d)) hnog
  have hold2 : ∀ d ∈ oldB2.contacts, d.guid ≠ some g :=
    splitRemove_all hrem hnog
  subst hbs2
  have hlen2 : ((bs.set i oldB2).insertIdx (i + 1) newB).length = bs.length + 1 := by
    rw [List.length_insertIdx (i + 1) (bs.set i oldB2)
      (by rw [List.length_set]; omega), List.length_set]
  have hD2 : ∀ j', ((bs.set i oldB2).insertIdx (i + 1) newB).getD j' default
      = if j' < i + 1 then (bs.set i oldB2).getD j' default
        else if j' = i + 1 then newB else (bs.set i oldB2).getD (j' - 1) default :=
    fun j' => getD_insertIdx (i + 1) (bs.set i oldB2) newB j'
      (by rw [List.length_set]; omega)
  have hDi : ((bs.set i oldB2).insertIdx (i + 1) newB).getD i default = oldB2 := by
    rw [hD2 i, if_pos (by omega), getD_set_self hilt]
  have hDi1 : ((bs.set i oldB2).insertIdx (i + 1) newB).getD (i + 1) default = newB := by
    rw [hD2 (i + 1), if_neg (by omega), if_pos rfl]
  have huniq : ∀ j', j' < bs.length + 1 →
      ((((bs.set i oldB2).insertIdx (i + 1) newB).getD j' default).keyInRange
        (some g)) = true →
      (j' = i ∧ g < oldB.rangeMax - (oldB.rangeMax - oldB.rangeMin) / 2) ∨
      (j' = i + 1 ∧ ¬g < oldB.rangeMax - (oldB.rangeMax - oldB.rangeMin) / 2) := by
    intro j' hlt hk
    rcases Nat.lt_trichotomy j' (i + 1) with hc | hc | hc
    · by_cases hji : j' = i
      · subst hji
        rw [hDi] at hk
        simp only [KBucket.keyInRange, KBucket.keyInRangeNat, decide_eq_true_eq] at hk
        left
        exact ⟨rfl, by omega⟩
      · rw [hD2 j', if_pos hc, getD_set_ne (by omega)] at hk
        exact absurd (kbucketIndexL_some_unique hidx (by omega) hk) hji
    · subst hc
      rw [hDi1] at hk
      simp only [KBucket.keyInRange, KBucket.keyInRangeNat, decide_eq_true_eq] at hk
      right
      exact ⟨rfl, by omega⟩
    · rw [hD2 j', if_neg (by omega), if_neg (by omega), getD_set_ne (by omega)] at hk
      exact absurd (kbucketIndexL_some_unique hidx (j := j' - 1) (by omega) hk)
        (by omega)
  by_cases hgm : g < oldB.rangeMax - (oldB.rangeMax - oldB.rangeMin) / 2
  · refine ⟨i, ?_, ?_⟩
    · refine kbucketIndexL_eq_some_of_unique (by rw [hlen2]; omega) ?_ ?_
      · rw [hDi]
        simp only [KBucket.keyInRange, KBucket.keyInRangeNat, decide_eq_true_eq]
        omega
      · intro j' hj' hk'
        rcases huniq j' (by rw [hlen2] at hj'; exact hj') hk' with ⟨he, -⟩ | ⟨-, hgm2⟩
        · exact he
        · exact absurd hgm hgm2
    · rw [hDi]
      simp only [KBucket.getContact]
      exact List.find?_eq_none.mpr (fun d hd hpd => hold2 d hd (eq_of_beq hpd))
  · refine ⟨i + 1, ?_, ?_⟩
    · refine kbucketIndexL_eq_some_of_unique (by rw [hlen2]; omega) ?_ ?_
      · rw [hDi1]
        simp only [KBucket.keyInRange, KBucket.keyInRangeNat, decide_eq_true_eq]
        omega
      · intro j' hj' hk'
        rcases huniq j' (by rw [hlen2] at hj'; exact hj') hk' with ⟨-, hgm2⟩ | ⟨he, -⟩
        · exact absurd hgm2 hgm
        · exact he
    · rw [hDi1]
      simp only [KBucket.getContact]
      exact List.find?_eq_none.mpr (fun d hd hpd => hnew d hd (eq_of_beq hpd))

theorem rebind_remove_facts (k now : Nat) {s s3 : OptimizedTreeRoutingTable} {g : Nat}
    {i : Nat} {oldC : Contact}
    (hidx : kbucketIndexL s.buckets (some g) = some i)
    (hold : (s.buckets.getD i default).getContact (some g) = some oldC)
    (hnd : ((s.buckets.getD i default).contacts.map (fun d => d.guid)).Nodup)
    (hcache : cacheAll (fun d => d.guid ≠ some g) s.replacement_cache)
    (hrem : s.removeContact k now (some g) = some s3) :
    s3.parentNodeId = s.parentNodeId ∧
    kbucketIndexL s3.buckets (some g) = some i ∧
    (s3.buckets.getD i default).getContact (some g) = none := by
  have hilt : i < s.buckets.length := (kbucketIndexL_some_mem hidx).1
  simp only [KBucket.getContact] at hold
  have holdp : (oldC.guid == some g) = true :=
    List.find?_some (p := fun c : Contact => c.guid == some g) hold
  have hany : ((s.buckets.getD i default).contacts.any (fun d => d.guid == some g))
      = true :=
    List.any_eq_true.mpr ⟨oldC, List.mem_of_find?_eq_some hold, holdp⟩
  have herase : ∀ d ∈ (s.buckets.getD i default).contacts.eraseP
      (fun d => d.guid == some g), d.guid ≠ some g := by
    intro d hd he
    exact (List.find?_eq_none.mp (find?_eraseP_none hnd) d hd)
      (by rw [he]; exact beq_self_eq_true _)
  rw [OptimizedTreeRoutingTable.removeContact, hidx] at hrem
  dsimp only at hrem
  have hrem2 : (s.buckets.getD i default).removeContact (some g)
      = some { s.buckets.getD i default with
          contacts := (s.buckets.getD i default).contacts.eraseP
            (fun d => d.guid == some g) } := by
    simp only [KBucket.removeContact, hany, if_true]
  rw [hrem2] at hrem
  dsimp only at hrem
  by_cases hcond : (rcMem s.replacement_cache i
      && decide (0 < (rcGet s.replacement_cache i).length)) = true
  · rw [if_pos hcond] at hrem
    rcases hlast : (rcGet s.replacement_cache i).getLast? with _ | promoted
    · rw [hlast] at hrem
      cases hrem
    · rw [hlast] at hrem
      dsimp only at hrem
      rcases haddP : KBucket.addContact k now
          { s.buckets.getD i default with
            contacts := (s.buckets.getD i default).contacts.eraseP
              (fun d => d.guid == some g) } promoted with _ | b3
      · rw [haddP] at hrem
        cases hrem
      · rw [haddP] at hrem
        cases hrem
        have hpromg : promoted.guid ≠ some g :=
          cacheAll_rcGet hcache promoted (mem_of_getLast?_contact hlast)
        have hb3 : ∀ d ∈ b3.contacts, d.guid ≠ some g :=
          kbAddContact_all haddP herase hpromg
        have hr3 := KBucket.addContact_ranges haddP
        refine ⟨rfl, ?_, ?_⟩
        · dsimp only
          refine Eq.trans (kbucketIndexL_set_ranges hilt hr3.1 hr3.2 (some g)) hidx
        · dsimp only
          rw [getD_set_self hilt]
          simp only [KBucket.getContact]
          exact List.find?_eq_none.mpr
            (fun d hd hpd => hb3 d hd (eq_of_beq hpd))
  · rw [if_neg hcond] at hrem
    cases hrem
    refine ⟨rfl, ?_, ?_⟩
    · dsimp only
      refine Eq.trans (kbucketIndexL_set_ranges hilt ?_ ?_ (some g)) hidx <;> rfl
    · dsimp only
      rw [getD_set_self hilt]
      simp only [KBucket.getContact]
      exact List.find?_eq_none.mpr
        (fun d hd hpd => herase d hd (eq_of_beq hpd))

theorem opt_add_assoc_aux (k now : Nat) (g : Nat) :
    ∀ (gas : Nat) (s : OptimizedTreeRoutingTable) (c : Contact) (i : Nat)
      (s' : OptimizedTreeRoutingTable),
      c.guid = some g →
      g ≠ s.parentNodeId →
      kbucketIndexL s.buckets (some g) = some i →
      (s.buckets.getD i default).getContact (some g) = none →
      (OptimizedTreeRoutingTable.addContact k gas now s c).1 = some s' →
      assocAddress s' (some g) = some c.address := by
  intro gas
  induction gas with
  | zero =>
    intro s c i s' hg hgp hidx hnone h
    rw [OptimizedTreeRoutingTable.addContact, hg] at h
    dsimp only at h
    have hbeqf : ((some g : Option Nat) == some s.parentNodeId) = false :=
      beq_eq_false_iff_ne.mpr (fun he => hgp (Option.some.inj he))
    rw [if_neg (fun hc => Bool.false_ne_true (hbeqf ▸ hc))] at h
    rw [hidx] at h
    dsimp only at h
    rw [hnone] at h
    dsimp only at h
    rcases hadd : (s.buckets.getD i default).addContact k now
        (⟨some g, c.address, 0⟩ : Contact) with _ | b2
    · rw [hadd] at h
      dsimp only at h
      by_cases hpr : (s.buckets.getD i default).keyInRangeNat s.parentNodeId = true
      · rw [if_pos hpr] at h
        cases h
      · rw [if_neg hpr] at h
        dsimp only at h
        rcases hci : cacheInsert k s.replacement_cache i
            (⟨some g, c.address, 0⟩ : Contact) with _ | rc
        · rw [hci] at h
          cases h
        · rw [hci] at h
          cases h
          exact assoc_cache_case (c := (⟨some g, c.address, 0⟩ : Contact))
            rfl hidx hnone hci
    · rw [hadd] at h
      cases h
      exact assoc_bucket_case (c := (⟨some g, c.address, 0⟩ : Contact))
        rfl hidx hnone hadd
  | succ gas ih =>
    intro s c i s' hg hgp hidx hnone h
    rw [OptimizedTreeRoutingTable.addContact, hg] at h
    dsimp only at h
    have hbeqf : ((some g : Option Nat) == some s.parentNodeId) = false :=
      beq_eq_false_iff_ne.mpr (fun he => hgp (Option.some.inj he))
    rw [if_neg (fun hc => Bool.false_ne_true (hbeqf ▸ hc))] at h
    rw [hidx] at h
    dsimp only at h
    rw [hnone] at h
    dsimp only at h
    rcases hadd : (s.buckets.getD i default).addContact k now
        (⟨some g, c.address, 0⟩ : Contact) with _ | b2
    · rw [hadd] at h
      dsimp only at h
      by_cases hpr : (s.buckets.getD i default).keyInRangeNat s.parentNodeId = true
      · rw [if_pos hpr] at h
        rcases hsplit : splitBucketL k now s.buckets i with _ | bs2
        · rw [hsplit] at h
          cases h
        · rw [hsplit] at h
          dsimp only at h
          obtain ⟨j, hidx2, hnone2⟩ := split_premises hidx hnone hsplit
          exact ih { s with buckets := bs2 } (⟨some g, c.address, 0⟩ : Contact)
            j s' rfl hgp hidx2 hnone2 h
      · rw [if_neg hpr] at h
        dsimp only at h
        rcases hci : cacheInsert k s.replacement_cache i
            (⟨some g, c.address, 0⟩ : Contact) with _ | rc
        · rw [hci] at h
          cases h
        · rw [hci] at h
          cases h
          exact assoc_cache_case (c := (⟨some g, c.address, 0⟩ : Contact))
            rfl hidx hnone hci
    · rw [hadd] at h
      cases h
      exact assoc_bucket_case (c := (⟨some g, c.address, 0⟩ : Contact))
        rfl hidx hnone hadd

/-- C6: in the optimized table, addContact of a contact whose guid already
sits in its covering bucket under a different address (a rebind) removes
the existing entry and re-inserts the contact with the new address —
directly when the bucket has room, else via split or the replacement
cache — so that any completed call leaves the table associating that guid
with the new address (bucket entry first, else the most recent cache
entry).  This is the intended behaviour: the rebind path calls the
optimized removeContact, which reads the misspelt self.replacementCache
(line 591), so in the source every rebind removes the old entry and then
dies with AttributeError before re-inserting (spec §9); the embedding
resolves the field name as the spec directs.  The hypotheses ask that the
covering bucket's guids are duplicate-free and that no cache list already
holds the guid, both invariants of the intended discipline. -/
theorem opt_rebind_associates_new_address (k gas now : Nat)
    (s s' : OptimizedTreeRoutingTable) (c oldC : Contact) (g i : Nat)
    (hg : c.guid = some g)
    (hgp : g ≠ s.parentNodeId)
    (hidx : kbucketIndexL s.buckets (some g) = some i)
    (hold : (s.buckets.getD i default).getContact (some g) = some oldC)
    (haddr : oldC.address ≠ c.address)
    (hnd : ((s.buckets.getD i default).contacts.map (fun d => d.guid)).Nodup)
    (hcache : cacheAll (fun d => d.guid ≠ some g) s.replacement_cache)
    (hsucc : (OptimizedTreeRoutingTable.addContact k gas now s c).1 = some s') :
    assocAddress s' (some g) = some c.address := by
  rw [OptimizedTreeRoutingTable.addContact, hg] at hsucc
  dsimp only at hsucc
  have hbeqf : ((some g : Option Nat) == some s.parentNodeId) = false :=
    beq_eq_false_iff_ne.mpr (fun he => hgp (Option.some.inj he))
  rw [if_neg (fun hc => Bool.false_ne_true (hbeqf ▸ hc))] at hsucc
  rw [hidx] at hsucc
  dsimp only at hsucc
  rw [hold] at hsucc
  dsimp only at hsucc
  rw [if_pos (bne_iff_ne.mpr haddr)] at hsucc
  rcases hremS : OptimizedTreeRoutingTable.removeContact k now s (some g) with _ | s3
  · rw [hremS] at hsucc
    cases hsucc
  · rw [hremS] at hsucc
    dsimp only at hsucc
    obtain ⟨hpar3, hidx3, hnone3⟩ :=
      rebind_remove_facts k now hidx hold hnd hcache hremS
    have hgp3 : g ≠ s3.parentNodeId := by
      rw [hpar3]
      exact hgp
    rcases hadd2 : (s3.buckets.getD i default).addContact k now
        (⟨some g, c.address, 0⟩ : Contact) with _ | b4
    · rw [hadd2] at hsucc
      dsimp only at hsucc
      by_cases hpr : (s3.buckets.getD i default).keyInRangeNat s3.parentNodeId = true
      · rw [if_pos hpr] at hsucc
        rcases gas with _ | gas'
        · cases hsucc
        · rcases hsplit : splitBucketL k now s3.buckets i with _ | bs2
          · rw [hsplit] at hsucc
            cases hsucc
          · rw [hsplit] at hsucc
            dsimp only at hsucc
            obtain ⟨j, hidx4, hnone4⟩ := split_premises hidx3 hnone3 hsplit
            exact opt_add_assoc_aux k now g gas' { s3 with buckets := bs2 }
              (⟨some g, c.address, 0⟩ : Contact) j s' rfl hgp3 hidx4 hnone4 hsucc
      · rw [if_neg hpr] at hsucc
        dsimp only at hsucc
        rcases hci : cacheInsert k s3.replacement_cache i
            (⟨some g, c.address, 0⟩ : Contact) with _ | rc
        · rw [hci] at hsucc
          cases hsucc
        · rw [hci] at hsucc
          cases hsucc
          exact assoc_cache_case (c := (⟨some g, c.address, 0⟩ : Contact))
            rfl hidx3 hnone3 hci
    · rw [hadd2] at hsucc
      cases hsucc
      exact assoc_bucket_case (c := (⟨some g, c.address, 0⟩ : Contact))
        rfl hidx3 hnone3 hadd2

theorem opt_rebind_associates_new_address_check :
    (OptimizedTreeRoutingTable.addContact 2 0 7
        (⟨0, [⟨0, 4, [⟨some 1, 5, 0⟩], 99⟩], []⟩ : OptimizedTreeRoutingTable)
        (⟨some 1, 6, 3⟩ : Contact)).1
      = some (⟨0, [⟨0, 4, [⟨some 1, 6, 0⟩], 7⟩], []⟩ : OptimizedTreeRoutingTable) ∧
    assocAddress
      (⟨0, [⟨0, 4, [⟨some 1, 6, 0⟩], 7⟩], []⟩ : OptimizedTreeRoutingTable)
      (some 1) = some 6 := by
  have h : (OptimizedTreeRoutingTable.addContact 2 0 7
        (⟨0, [⟨0, 4, [⟨some 1, 5, 0⟩], 99⟩], []⟩ : OptimizedTreeRoutingTable)
        (⟨some 1, 6, 3⟩ : Contact)).1
      = some (⟨0, [⟨0, 4, [⟨some 1, 6, 0⟩], 7⟩], []⟩ : OptimizedTreeRoutingTable) := by
    decide
  refine ⟨h, ?_⟩
  exact opt_rebind_associates_new_address 2 0 7
    (⟨0, [⟨0, 4, [⟨some 1, 5, 0⟩], 99⟩], []⟩ : OptimizedTreeRoutingTable)
    (⟨0, [⟨0, 4, [⟨some 1, 6, 0⟩], 7⟩], []⟩ : OptimizedTreeRoutingTable)
    (⟨some 1, 6, 3⟩ : Contact) (⟨some 1, 5, 0⟩ : Contact) 1 0
    rfl (by decide) (by decide) (by decide) (by decide) (by decide)
    (fun p hp => absurd hp (List.not_mem_nil p)) h
